import Mathlib

/-!
# Verification of the Prodigy LLVM pass analysis pipeline

This development gives a shallow embedding of the analysis core of the
Prodigy pass (allocation collection, element-size inference, base-pointer
provenance tracking, indirection detection, and the DIG trigger policy)
and proves or refutes the specified properties against it.

Modelling conventions, used throughout:

* LLVM `Value`s are modelled by the inductive type `V`.  Instruction
  identity (pointer identity in LLVM) is modelled by a numeric `id` field
  carried by every instruction constructor; constants (`V.cnst`) compare
  by value, as `ConstantInt` uniquing does.
* Instruction lists are traversed in program order.  LLVM's `users()`
  iteration order is unspecified; here a value's users are the
  instructions of the module that have it as a direct operand, in program
  order.  The source is deterministic for a fixed traversal order and all
  properties below are stated for this fixed order.
* Machine integers (`int64_t`, node ids) are modelled by `Int` / `Nat`;
  the `UINT32_MAX` invalid-node sentinel is the literal `4294967295`.
* Recursions that the C++ performs with unbounded call stacks or
  worklist loops are given an explicit fuel parameter; `none` means the
  computation is still running after `fuel` steps.  A function that the
  C++ version always terminates evaluates to `some _` for every
  sufficiently large fuel.
-/

/-- `UINT32_MAX`, the invalid-node-id sentinel used by the pass. -/
def UINT32MAX : Nat := 4294967295

mutual
/-- Shallow model of `llvm::Value`.  Each instruction constructor carries a
numeric identity (`id`) modelling pointer identity of the instruction;
operands are carried structurally. -/
inductive V : Type where
  /-- `ConstantInt` (compared by value, as LLVM uniques constants). -/
  | cnst (n : Int)
  /-- result of an allocation call (`malloc`/`calloc`/... call instruction). -/
  | alloc (id : Nat)
  /-- `GlobalVariable`. -/
  | global (id : Nat)
  /-- `AllocaInst` (stack slot). -/
  | alloca (id : Nat)
  /-- function argument. -/
  | arg (id : Nat)
  /-- `LoadInst` with its pointer operand. -/
  | load (id : Nat) (ptr : V)
  /-- `GetElementPtrInst` with pointer operand and index operands. -/
  | gep (id : Nat) (base : V) (idxs : VL)
  /-- `SExtInst`. -/
  | sext (id : Nat) (op : V)
  /-- `ZExtInst`. -/
  | zext (id : Nat) (op : V)
  /-- `TruncInst`. -/
  | trunc (id : Nat) (op : V)
  /-- `BitCastInst`. -/
  | bitcast (id : Nat) (op : V)
  /-- `BinaryOperator` with opcode tag. -/
  | binop (id : Nat) (bop : BOp) (a b : V)
  /-- `ICmpInst`. -/
  | icmp (id : Nat) (a b : V)
  /-- `SelectInst`. -/
  | select (id : Nat) (c t f : V)
  /-- generic `CallInst` (callee is a function index when statically known). -/
  | callv (id : Nat) (callee : Option Nat) (args : VL)
  /-- any other opaque value. -/
  | other (id : Nat)
  deriving DecidableEq

/-- Binary-operator opcodes used by the pass. -/
inductive BOp : Type where
  | add | mul | shl | sub
  deriving DecidableEq

/-- Operand lists (a mutual companion of `V`, isomorphic to `List V`). -/
inductive VL : Type where
  | nil
  | cons (v : V) (vs : VL)
  deriving DecidableEq
end

/-- View an operand list as a `List V`. -/
def VL.toList : VL → List V
  | .nil => []
  | .cons v vs => v :: vs.toList

/-- Build a `VL` from a `List V`. -/
def VL.ofList : List V → VL
  | [] => .nil
  | v :: vs => .cons v (VL.ofList vs)

/-- Direct operands of a value (the edges LLVM's `users()` relation is
built from). -/
def V.operands : V → List V
  | .cnst _ | .alloc _ | .global _ | .alloca _ | .arg _ | .other _ => []
  | .load _ p => [p]
  | .gep _ b is => b :: is.toList
  | .sext _ a | .zext _ a | .trunc _ a | .bitcast _ a => [a]
  | .binop _ _ a b => [a, b]
  | .icmp _ a b => [a, b]
  | .select _ c t f => [c, t, f]
  | .callv _ _ as => as.toList

/-- Model of an LLVM instruction as it appears in a basic block: either a
value-producing instruction, a `StoreInst`, or a `BranchInst` (with an
optional condition and the two successor block indices). -/
inductive Inst : Type where
  | oper (v : V)
  | store (id : Nat) (val ptrOp : V)
  | br (id : Nat) (cond : Option V) (s0 s1 : Nat)
  deriving DecidableEq

/-- Direct operands of an instruction. -/
def Inst.operands : Inst → List V
  | .oper v => v.operands
  | .store _ val p => [val, p]
  | .br _ c _ _ => c.toList

/-- A function body: a list of basic blocks, each a list of instructions.
The name-based special cases of the source (the `TDStep`/`BFS` check at
`IndirectionDetector.cpp:84`) are outside this model: the functions
modelled here are those whose names contain none of the special
substrings, for which that branch is a no-op. -/
structure Func : Type where
  blocks : List (List Inst)
  deriving DecidableEq

/-- A compilation unit. -/
structure IRModule : Type where
  funcs : List Func
  deriving DecidableEq

/-- All instructions of a function, in program order. -/
def Func.insts (F : Func) : List Inst := F.blocks.flatten

/-- All instructions of the module, in program order. -/
def IRModule.insts (M : IRModule) : List Inst := (M.funcs.map Func.insts).flatten

/-- The users of `v`: instructions having `v` as a direct operand
(`Value::users()`, with program order as the fixed traversal order). -/
def usersIn (insts : List Inst) (v : V) : List Inst :=
  insts.filter (fun i => i.operands.contains v)

/-- The values stored to location `p` by `StoreInst`s among `insts`
(`getPointerOperand() == p`), in program order. -/
def storeValsTo (insts : List Inst) (p : V) : List V :=
  insts.filterMap (fun i => match i with
    | .store _ sval q => if q = p then some sval else none
    | _ => none)

/-- The function of `M` containing the instruction that defines `v`
(`Instruction::getFunction`). -/
def funcOfValue (M : IRModule) (v : V) : Option Func :=
  M.funcs.find? (fun F => F.insts.contains (Inst.oper v))

/-! ## BasePointerTracker state

`BasePointerTracker` keeps `std::unordered_map<Value*, uint32_t> ptrToNodeId`.
It is modelled as an association list; `registerPointer` overwrites an
existing binding (like `operator[]` assignment) or appends a new one. -/

/-- The `ptrToNodeId` map of `BasePointerTracker`. -/
abbrev TrackerMap := List (V × Nat)

/-- `BasePointerTracker::isRegistered`. -/
def isRegistered (m : TrackerMap) (v : V) : Bool :=
  (m.find? (fun p => p.1 = v)).isSome

/-- `BasePointerTracker::getNodeId` (returns `UINT32_MAX` when absent). -/
def getNodeId (m : TrackerMap) (v : V) : Nat :=
  match m.find? (fun p => p.1 = v) with
  | some p => p.2
  | none => UINT32MAX

/-- `BasePointerTracker::registerPointer` (`ptrToNodeId[ptr] = nodeId`). -/
def registerPointer (m : TrackerMap) (v : V) (nid : Nat) : TrackerMap :=
  if isRegistered m v then
    m.map (fun p => if p.1 = v then (v, nid) else p)
  else
    m ++ [(v, nid)]

/-! ## `BasePointerTracker::areGEPsSimilar`

Source: `ProdigyPass.cpp:1654-1685` (the `BasePointerTracker.cpp` part of
the translation unit).  The function only inspects the two GEPs' operand
lists past the pointer operand, so it is modelled on the index lists. -/

/-- One step of the index comparison loop (`ProdigyPass.cpp:1665-1678`):
both constant and unequal fails; exactly one constant fails; otherwise the
position passes. -/
def gepIdxPairOk : V → V → Bool
  | .cnst a, .cnst b => a = b
  | .cnst _, _ => false
  | _, .cnst _ => false
  | _, _ => true

/-- `BasePointerTracker::areGEPsSimilar` on the two GEPs' index lists:
requires equal index counts, then — only for GEPs with at least two
indices — checks every operand pair with `gepIdxPairOk`; GEPs with fewer
than two indices always compare unsimilar. -/
def areGEPsSimilar (l1 l2 : List V) : Bool :=
  if l1.length ≠ l2.length then false
  else if l1.length ≥ 2 then
    (l1.zip l2).all (fun p => gepIdxPairOk p.1 p.2)
  else false

/-! ## `BasePointerTracker::getBasePointer`

Source: `ProdigyPass.cpp:1400-1632` (the `BasePointerTracker.cpp` part of
the translation unit).  The C++ function recurses without any depth or
visited-set bound; the embedding makes the recursion budget explicit as
`fuel` (each C++ call frame consumes one unit), so `none` means the C++
computation is still running after `fuel` nested calls. -/

/-- The stored values of all module stores whose pointer operand is a GEP
similar (`areGEPsSimilar`) to a GEP with index list `idxs` — the
whole-module store scans of `ProdigyPass.cpp:1479-1504` and `1554-1581`. -/
def similarStoreVals (M : IRModule) (idxs : List V) : List V :=
  M.insts.filterMap (fun i => match i with
    | .store _ sval (V.gep _ _ idxs2) =>
      if areGEPsSimilar idxs idxs2.toList then some sval else none
    | _ => none)

/-- The alloca store scan of `ProdigyPass.cpp:1609-1627`: only directly
registered stored values are recognized (no recursion); a hit aliases the
alloca to the stored value's node. -/
def allocaStoreScan (st : TrackerMap) (ai : V) : List V → (Option V × TrackerMap)
  | [] => (none, st)
  | sv :: rest =>
    if isRegistered st sv then
      (some sv, registerPointer st ai (getNodeId st sv))
    else allocaStoreScan st ai rest

/-- The scan loop shared by the two similar-store searches
(`ProdigyPass.cpp:1484-1499` and `1557-1576`), with the recursive
resolution passed in as `resolve` (it is `getBasePointer` at the current
recursion budget): a registered stored value is returned at once;
otherwise the stored value is resolved recursively and returned only if
its base is registered, else the scan continues with the updated map.
Result `(none, st)` means the scan completed without a hit; outer `none`
means the budget ran out inside a recursive resolution. -/
def scanStoredList (resolve : TrackerMap → V → Option (V × TrackerMap)) :
    TrackerMap → List V → Option (Option V × TrackerMap)
  | st, [] => some (none, st)
  | st, sv :: rest =>
    if isRegistered st sv then some (some sv, st)
    else
      match resolve st sv with
      | none => none
      | some (b, st1) =>
        if isRegistered st1 b then some (some b, st1)
        else scanStoredList resolve st1 rest

/-- The direct-store scan of `ProdigyPass.cpp:1585-1606`: like
`scanStoredList`, but a directly registered stored value additionally
aliases the loaded-from location to the same node (line 1595). -/
def scanDirectStores (resolve : TrackerMap → V → Option (V × TrackerMap))
    (lptr : V) : TrackerMap → List V → Option (Option V × TrackerMap)
  | st, [] => some (none, st)
  | st, sv :: rest =>
    if isRegistered st sv then
      some (some sv, registerPointer st lptr (getNodeId st sv))
    else
      match resolve st sv with
      | none => none
      | some (b, st1) =>
        if isRegistered st1 b then some (some b, st1)
        else scanDirectStores resolve lptr st1 rest

/-- `BasePointerTracker::getBasePointer` (`ProdigyPass.cpp:1400-1632`).
Returns the resolved base value together with the updated `ptrToNodeId`
map (the function memoizes aliases as a side effect), or `none` when the
recursion has not finished within `fuel` nested calls. -/
def getBasePointer : Nat → IRModule → TrackerMap → V → Option (V × TrackerMap)
  | 0, _, _, _ => none
  | fuel+1, M, st, ptr =>
    -- memo hit: a registered value is its own base (line 1413)
    if isRegistered st ptr then some (ptr, st)
    else
      match ptr with
      | .global g =>
        -- lines 1419-1448: first store to the global wins
        match storeValsTo M.insts (V.global g) with
        | [] => some (V.global g, st)
        | sv :: _ =>
          if isRegistered st sv then
            some (sv, registerPointer st (V.global g) (getNodeId st sv))
          else getBasePointer fuel M st sv
      | .gep _ base idxs =>
        -- lines 1451-1510: struct-member special case, then peel one level
        let isStructAccess : Bool := decide (idxs.toList.length ≥ 2) &&
          (match idxs.toList.head? with | some (V.cnst 0) => true | _ => false)
        let baseIsLoad : Bool := match base with | V.load _ _ => true | _ => false
        if isStructAccess && baseIsLoad then
          match scanStoredList (getBasePointer fuel M) st
              (similarStoreVals M idxs.toList) with
          | none => none
          | some (some b, st1) => some (b, st1)
          | some (none, st1) => getBasePointer fuel M st1 base
        else getBasePointer fuel M st base
      | .load lid lptr =>
        -- lines 1513-1628
        let globalHit : Option V :=
          match lptr with
          | .global _ => (storeValsTo M.insts lptr).head?
          | _ => none
        match globalHit with
        | some sv =>
          -- lines 1521-1540: first store to the loaded-from global wins
          if isRegistered st sv then some (sv, st)
          else getBasePointer fuel M st sv
        | none =>
          -- lines 1543-1582: loading from a GEP, similar-store module scan
          let stepB : Option (Option V × TrackerMap) :=
            match lptr with
            | .gep _ _ gidxs =>
              scanStoredList (getBasePointer fuel M) st
                (similarStoreVals M gidxs.toList)
            | _ => some (none, st)
          match stepB with
          | none => none
          | some (some b, st1) => some (b, st1)
          | some (none, st1) =>
            -- lines 1585-1606: stores directly targeting the location
            match scanDirectStores (getBasePointer fuel M) lptr st1
                (storeValsTo M.insts lptr) with
            | none => none
            | some (some b, st2) => some (b, st2)
            | some (none, st2) =>
              -- lines 1609-1627: alloca slot, search stores in its function
              match lptr with
              | .alloca a =>
                match funcOfValue M (V.alloca a) with
                | some F =>
                  match allocaStoreScan st2 (V.alloca a)
                      (storeValsTo F.insts (V.alloca a)) with
                  | (some sv, st3) => some (sv, st3)
                  | (none, st3) => some (V.load lid lptr, st3)
                | none => some (V.load lid lptr, st2)
              | _ => some (V.load lid lptr, st2)
      | p => some (p, st)

/-! ## IndirectionDetector

Source: `IndirectionDetector.cpp`.  The detector records `IndirectionInfo`
entries deduplicated by `(srcBase, destBase, kind)` keys held in the two
persistent sets `detectedPatterns` / `detectedRangedPatterns`
(`IndirectionDetector.h:52-53`); the sets survive across calls to
`detectIndirections` within one analysis session, while `indirections`
is cleared at the start of every call.

The `TDStep`/`BFS` function-name special case
(`IndirectionDetector.cpp:84-86`) only fires for specially named
functions and is outside this model (modelled functions have ordinary
names, for which that branch is a no-op). -/

/-- The two indirection kinds (`IndirectionType`). -/
inductive IndirType : Type where
  | singleValued
  | ranged
  deriving DecidableEq

/-- Deduplication key `EdgeKey(srcBase, destBase, kind)`. -/
abbrev EdgeKeyV := V × V × IndirType

/-- `IndirectionInfo`. -/
structure IndirInfo : Type where
  srcBase : V
  destBase : V
  srcNodeId : Nat := UINT32MAX
  destNodeId : Nat := UINT32MAX
  itype : IndirType
  access : V
  deriving DecidableEq

/-- `IndirectionDetector::AccessorPattern`. -/
structure AccessorPat : Type where
  indexLoad : V
  dataLoad : V
  gepInst : V
  deriving DecidableEq

/-- The fields of `AllocInfo` consumed by the detector
(`getNodeIdFromBase`). -/
structure AllocInfoD : Type where
  basePtr : V
  nodeId : Nat
  deriving DecidableEq

/-- Mutable state of one `IndirectionDetector` (plus the shared
`BasePointerTracker` map it resolves through). -/
structure DetSt : Type where
  indirections : List IndirInfo := []
  detectedPatterns : List EdgeKeyV := []
  detectedRangedPatterns : List EdgeKeyV := []
  tracker : TrackerMap := []
  deriving DecidableEq

/-- Strip bitcasts and peel GEPs (the loop of
`IndirectionDetector.cpp:29-40`). -/
def stripCastsGeps : V → V
  | .bitcast _ a => stripCastsGeps a
  | .gep _ b _ => stripCastsGeps b
  | v => v

/-- `IndirectionDetector::getUltimateBase` (`IndirectionDetector.cpp:23-42`):
resolve once, follow a load result one more step, then strip
bitcasts/GEPs. -/
def getUltimateBase (fuel : Nat) (M : IRModule) (st : TrackerMap) (v : V) :
    Option (V × TrackerMap) :=
  match getBasePointer fuel M st v with
  | none => none
  | some (base, st1) =>
    match base with
    | .load _ p =>
      match getBasePointer fuel M st1 p with
      | none => none
      | some (b2, st2) => some (stripCastsGeps b2, st2)
    | b => some (stripCastsGeps b, st1)

/-- Whether two instructions belong to the same function of the module
(`Instruction::getParent()->getParent()` comparison). -/
def inSameFunc (M : IRModule) (i j : Inst) : Bool :=
  M.funcs.any (fun F => F.insts.contains i && F.insts.contains j)

/-- Stored values pushed by `traceToLoad`'s alloca case
(`IndirectionDetector.cpp:654-667`): values stored to the alloca by
stores in the same basic block or same function as the load.  A store in
the same block is in particular in the same function, so the disjunction
collapses to the same-function test. -/
def allocaTracePushes (M : IRModule) (ai cur : V) : List V :=
  M.insts.filterMap (fun i => match i with
    | .store sid sval q =>
      if q = ai && inSameFunc M (Inst.store sid sval q) (Inst.oper cur)
      then some sval else none
    | _ => none)

/-- The worklist loop of `IndirectionDetector::traceToLoad`
(`IndirectionDetector.cpp:639-686`).  The C++ loop is intrinsically
bounded by its `visited.size() < 10` guard; `fuel` bounds the iteration
count and is chosen by `traceToLoad` large enough that the loop always
exits through its own guards first.  On success returns the found load's
`(id, pointer operand)`. -/
def traceToLoadLoop (M : IRModule) : Nat → List V → List V → Option (Nat × V)
  | 0, _, _ => none
  | fuel+1, worklist, visited =>
    if visited.length < 10 then
      match worklist with
      | [] => none
      | cur :: rest =>
        if visited.contains cur then traceToLoadLoop M fuel rest visited
        else
          let vis := visited ++ [cur]
          match cur with
          | .load lid p =>
            match p with
            | .alloca a =>
              traceToLoadLoop M fuel (rest ++ allocaTracePushes M (V.alloca a) (V.load lid p)) vis
            | _ => some (lid, p)
          | .sext _ a => traceToLoadLoop M fuel (rest ++ [a]) vis
          | .zext _ a => traceToLoadLoop M fuel (rest ++ [a]) vis
          | .trunc _ a => traceToLoadLoop M fuel (rest ++ [a]) vis
          | .binop _ _ a b => traceToLoadLoop M fuel (rest ++ [a, b]) vis
          | _ => traceToLoadLoop M fuel rest vis
    else none

/-- `IndirectionDetector::traceToLoad`.  The iteration count of the C++
loop is at most `1 + 10 * (pushes per expansion)`, and one expansion
pushes at most `|module instructions| + 2` values, so the fuel below
always outlasts the loop's own `visited.size() < 10` bound. -/
def traceToLoad (M : IRModule) (v : V) : Option (Nat × V) :=
  traceToLoadLoop M (10 * (M.insts.length + 2) + 12) [v] []

/-- `IndirectionDetector::getNodeIdFromBase` (`IndirectionDetector.cpp:64-71`). -/
def getNodeIdFromBase (base : V) (allocs : List AllocInfoD) : Nat :=
  match allocs.find? (fun a => a.basePtr = base) with
  | some a => a.nodeId
  | none => UINT32MAX

/-- `IndirectionDetector::createIndirectionEntry`
(`IndirectionDetector.cpp:1061-1100`): look node ids up in the tracker
and record the entry only when both ids are valid, they differ, and the
`(src, dest, kind)` key is not already in the kind's dedup set. -/
def createIndirectionEntry (st : DetSt) (srcBase destBase acc : V)
    (ty : IndirType) : DetSt :=
  let srcId := if isRegistered st.tracker srcBase then getNodeId st.tracker srcBase
               else UINT32MAX
  let destId := if isRegistered st.tracker destBase then getNodeId st.tracker destBase
                else UINT32MAX
  if srcId ≠ UINT32MAX ∧ destId ≠ UINT32MAX ∧ srcId ≠ destId then
    let key : EdgeKeyV := (srcBase, destBase, ty)
    let inSet := match ty with
      | .singleValued => st.detectedPatterns.contains key
      | .ranged => st.detectedRangedPatterns.contains key
    if inSet then st
    else
      let info : IndirInfo :=
        { srcBase := srcBase, destBase := destBase, srcNodeId := srcId,
          destNodeId := destId, itype := ty, access := acc }
      match ty with
      | .singleValued =>
        { st with indirections := st.indirections ++ [info],
                  detectedPatterns := st.detectedPatterns ++ [key] }
      | .ranged =>
        { st with indirections := st.indirections ++ [info],
                  detectedRangedPatterns := st.detectedRangedPatterns ++ [key] }
  else st

/-- `IndirectionDetector::connectAccessorPattern`
(`IndirectionDetector.cpp:778-819`): resolve the call's first argument;
if it reaches a registered base, record — per stored accessor pattern —
an entry whose source and destination are both that base and its node id
(the source's admitted simplification). -/
def connectAccessorPattern (fuel : Nat) (M : IRModule) (st : DetSt)
    (ci : V) (args : List V) (pats : List AccessorPat) : Option DetSt :=
  match args with
  | [] => some st
  | thisArg :: _ =>
    match getBasePointer fuel M st.tracker thisArg with
    | none => none
    | some (basePtr, tr) =>
      if ¬ isRegistered tr basePtr then some { st with tracker := tr }
      else
        let nid := getNodeId tr basePtr
        let newInfos := pats.map (fun _ =>
          ({ srcBase := basePtr, destBase := basePtr, srcNodeId := nid,
             destNodeId := nid, itype := .singleValued, access := ci } : IndirInfo))
        some { st with tracker := tr,
                       indirections := st.indirections ++ newInfos }

/-- Stored-then-reloaded values reachable from a load by one
store/reload hop (`IndirectionDetector.cpp:419-428`): for every store
using the load, every load from the stored-to location.  The C++
collects into a `std::set`; here first-occurrence order with
deduplication. -/
def storeReloadChain (M : IRModule) (l : V) : List V :=
  (usersIn M.insts l).foldl (fun acc i =>
    match i with
    | .store _ _ storedTo =>
      (usersIn M.insts storedTo).foldl (fun acc2 j =>
        match j with
        | .oper (V.load lid2 p2) =>
          if acc2.contains (V.load lid2 p2) then acc2
          else acc2 ++ [V.load lid2 p2]
        | _ => acc2) acc
    | _ => acc) []

/-- One index position of the per-load loop in the single-valued first
pass (`IndirectionDetector.cpp:128-198`): strip one sign/zero extension,
trace to a producing load, resolve both bases through the tracker and
record the candidate subject to validity and the `detectedPatterns`
dedup set.  No `src ≠ dest` comparison appears on this path. -/
def singlePassIdx (fuel : Nat) (M : IRModule) (st : DetSt)
    (outerLoad outerGepBase idx : V) : Option DetSt :=
  let origIndex := match idx with
    | .sext _ a => a
    | .zext _ a => a
    | i => i
  match traceToLoad M origIndex with
  | none => some st
  | some (_ilid, iptr) =>
    let srcQuery := match iptr with
      | .gep _ igBase _ => igBase
      | p => p
    match getUltimateBase fuel M st.tracker srcQuery with
    | none => none
    | some (srcBase, tr1) =>
      match getUltimateBase fuel M tr1 outerGepBase with
      | none => none
      | some (destBase, tr2) =>
        let srcId := if isRegistered tr2 srcBase then getNodeId tr2 srcBase
                     else UINT32MAX
        let destId := if isRegistered tr2 destBase then getNodeId tr2 destBase
                      else UINT32MAX
        let st2 := { st with tracker := tr2 }
        if srcId ≠ UINT32MAX ∧ destId ≠ UINT32MAX then
          let key : EdgeKeyV := (srcBase, destBase, .singleValued)
          if st2.detectedPatterns.contains key then some st2
          else
            let info : IndirInfo :=
              { srcBase := srcBase, destBase := destBase, srcNodeId := srcId,
                destNodeId := destId, itype := .singleValued,
                access := outerLoad }
            some { st2 with indirections := st2.indirections ++ [info],
                            detectedPatterns := st2.detectedPatterns ++ [key] }
        else some st2
  -- the unused `ilid` records that the traced value is a load
  

/-- Iterate `singlePassIdx` over the outer GEP's index operands. -/
def singlePassIdxList (fuel : Nat) (M : IRModule) :
    DetSt → V → V → List V → Option DetSt
  | st, _, _, [] => some st
  | st, outerLoad, outerGepBase, idx :: rest =>
    match singlePassIdx fuel M st outerLoad outerGepBase idx with
    | none => none
    | some st1 => singlePassIdxList fuel M st1 outerLoad outerGepBase rest

/-- Accessor patterns stored for function `f`
(`accessorPatterns[Callee]`, present by the call-site guard). -/
def accPatsFor (accPats : List (Nat × List AccessorPat)) (f : Nat) :
    List AccessorPat :=
  match accPats.find? (fun p => p.1 = f) with
  | some p => p.2
  | none => []

/-- Phase A of `identifySingleValuedIndirections`: the instruction scan
of `IndirectionDetector.cpp:95-202`, handling accessor-function calls
(lines 105-113) and loads whose address is a GEP (lines 115-200) in
program order. -/
def singlePassScan (fuel : Nat) (M : IRModule)
    (accPats : List (Nat × List AccessorPat)) :
    DetSt → List Inst → Option DetSt
  | st, [] => some st
  | st, i :: rest =>
    match i with
    | .oper (V.callv cid (some f) cargs) =>
      if (accPats.find? (fun p => p.1 = f)).isSome then
        match connectAccessorPattern fuel M st (V.callv cid (some f) cargs)
            cargs.toList (accPatsFor accPats f) with
        | none => none
        | some st1 => singlePassScan fuel M accPats st1 rest
      else singlePassScan fuel M accPats st rest
    | .oper (V.load olid (V.gep ogid obase oidxs)) =>
      match singlePassIdxList fuel M st (V.load olid (V.gep ogid obase oidxs))
          obase oidxs.toList with
      | none => none
      | some st1 => singlePassScan fuel M accPats st1 rest
    | _ => singlePassScan fuel M accPats st rest

/-- Innermost body of the second pass (`IndirectionDetector.cpp:229-242`):
resolve the outer GEP's base and, when both bases are registered and
distinct, feed every load using the outer GEP to
`createIndirectionEntry`. -/
def secondPassBody (fuel : Nat) (M : IRModule) (st : DetSt)
    (arrayBase outerGepBase outerGep : V) : Option DetSt :=
  match getUltimateBase fuel M st.tracker outerGepBase with
  | none => none
  | some (destBase, tr) =>
    let st1 := { st with tracker := tr }
    if isRegistered tr arrayBase ∧ isRegistered tr destBase ∧
        arrayBase ≠ destBase then
      some ((usersIn M.insts outerGep).foldl (fun acc i =>
        match i with
        | .oper (V.load flid fptr) =>
          createIndirectionEntry acc arrayBase destBase (V.load flid fptr)
            .singleValued
        | _ => acc) st1)
    else some st1

/-- Second-pass iteration over the outer GEP's operand positions
(`IndirectionDetector.cpp:226-244`): the body runs once per position
holding the index value. -/
def secondPassPositions (fuel : Nat) (M : IRModule) :
    DetSt → V → V → V → V → List V → Option DetSt
  | st, _, _, _, _, [] => some st
  | st, arrayBase, indexValue, outerGepBase, outerGep, op :: rest =>
    if op = indexValue then
      match secondPassBody fuel M st arrayBase outerGepBase outerGep with
      | none => none
      | some st1 =>
        secondPassPositions fuel M st1 arrayBase indexValue outerGepBase
          outerGep rest
    else
      secondPassPositions fuel M st arrayBase indexValue outerGepBase
        outerGep rest

/-- Second-pass iteration over the users of the index value
(`IndirectionDetector.cpp:223-246`): each user that is a GEP is checked
position by position. -/
def secondPassIdxUsers (fuel : Nat) (M : IRModule) :
    DetSt → V → V → List Inst → Option DetSt
  | st, _, _, [] => some st
  | st, arrayBase, indexValue, u :: rest =>
    match u with
    | .oper (V.gep ogid obase oidxs) =>
      match secondPassPositions fuel M st arrayBase indexValue obase
          (V.gep ogid obase oidxs) oidxs.toList with
      | none => none
      | some st1 => secondPassIdxUsers fuel M st1 arrayBase indexValue rest
    | _ => secondPassIdxUsers fuel M st arrayBase indexValue rest

/-- Second-pass iteration over the users of a load from an array GEP
(`IndirectionDetector.cpp:213-247`): a sign/zero-extension user stands
in for the loaded value as the index; otherwise the load itself does. -/
def secondPassLoadUsers (fuel : Nat) (M : IRModule) :
    DetSt → V → V → List Inst → Option DetSt
  | st, _, _, [] => some st
  | st, arrayBase, li, u :: rest =>
    let indexValue := match u with
      | .oper (V.sext sid a) => V.sext sid a
      | .oper (V.zext zid a) => V.zext zid a
      | _ => li
    match secondPassIdxUsers fuel M st arrayBase indexValue
        (usersIn M.insts indexValue) with
    | none => none
    | some st1 => secondPassLoadUsers fuel M st1 arrayBase li rest

/-- Second-pass iteration over the loads using one collected array GEP
(`IndirectionDetector.cpp:205-250`). -/
def secondPassGepUsers (fuel : Nat) (M : IRModule) :
    DetSt → V → List Inst → Option DetSt
  | st, _, [] => some st
  | st, gepBase, u :: rest =>
    match u with
    | .oper (V.load lid p) =>
      match getUltimateBase fuel M st.tracker gepBase with
      | none => none
      | some (arrayBase, tr) =>
        match secondPassLoadUsers fuel M { st with tracker := tr } arrayBase
            (V.load lid p) (usersIn M.insts (V.load lid p)) with
        | none => none
        | some st1 => secondPassGepUsers fuel M st1 gepBase rest
    | _ => secondPassGepUsers fuel M st gepBase rest

/-- Second pass over all collected array GEPs
(`IndirectionDetector.cpp:204-250`). -/
def secondPassGeps (fuel : Nat) (M : IRModule) :
    DetSt → List V → Option DetSt
  | st, [] => some st
  | st, g :: rest =>
    match g with
    | .gep _ b _ =>
      match secondPassGepUsers fuel M st b (usersIn M.insts g) with
      | none => none
      | some st1 => secondPassGeps fuel M st1 rest
    | _ => secondPassGeps fuel M st rest

/-- `IndirectionDetector::identifySingleValuedIndirections`
(`IndirectionDetector.cpp:73-255`): the program-order scan (phase A)
followed by the iterator-style second pass over collected GEPs with at
least one index. -/
def identifySingleValuedIndirections (fuel : Nat) (M : IRModule) (F : Func)
    (accPats : List (Nat × List AccessorPat)) (st : DetSt) : Option DetSt :=
  let arrayGEPs := F.insts.filterMap (fun i => match i with
    | .oper (V.gep gid b is) =>
      if is.toList.length ≥ 1 then some (V.gep gid b is) else none
    | _ => none)
  match singlePassScan fuel M accPats st F.insts with
  | none => none
  | some st1 => secondPassGeps fuel M st1 arrayGEPs

/-- `IndirectionDetector::areConsecutiveArrayLoads`
(`IndirectionDetector.cpp:291-394`), threading the tracker map mutated by
its `getUltimateBase` calls.  `true` means the two loads read the same
base array at indices differing by the literal 1. -/
def areConsecutiveArrayLoads (fuel : Nat) (M : IRModule) (tr : TrackerMap)
    (l1 l2 : V) : Option (Bool × TrackerMap) :=
  match l1, l2 with
  | .load _ (V.gep _ b1 i1), .load _ (V.gep _ b2 i2) =>
    -- struct-member tracing for each base (lines 303-317)
    let step1 : Option (V × TrackerMap) :=
      match b1 with
      | .load _ (V.gep _ sb1 _) => getUltimateBase fuel M tr sb1
      | _ => some (b1, tr)
    match step1 with
    | none => none
    | some (base1a, tr1) =>
      let step2 : Option (V × TrackerMap) :=
        match b2 with
        | .load _ (V.gep _ sb2 _) => getUltimateBase fuel M tr1 sb2
        | _ => some (b2, tr1)
      match step2 with
      | none => none
      | some (base2a, tr2) =>
        -- same-location collapse (lines 320-327)
        let collapsed : V × V :=
          match base1a, base2a with
          | .load _ p1, .load _ p2 =>
            if p1 = p2 then (p1, p1) else (base1a, base2a)
          | _, _ => (base1a, base2a)
        let base1 := collapsed.1
        let base2 := collapsed.2
        -- same-base determination (lines 329-349)
        let structSim : Bool :=
          match b1, b2 with
          | .load _ (V.gep _ _ si1), .load _ (V.gep _ _ si2) =>
            areGEPsSimilar si1.toList si2.toList
          | _, _ => false
        let sameBase := base1 = base2 || b1 = b2 || structSim
        if ¬ sameBase then some (false, tr2)
        else if i1.toList.length ≠ 1 ∨ i2.toList.length ≠ 1 then
          some (false, tr2)
        else
          -- index comparison (lines 358-391)
          let idx1 := match (i1.toList.getD 0 (V.other 0)) with
            | .sext _ a => a
            | v => v
          let idx2 := match (i2.toList.getD 0 (V.other 0)) with
            | .sext _ a => a
            | v => v
          match idx2 with
          | .binop _ .add a cb =>
            let addOp0 := match a, idx1 with
              | .load _ ap, .load _ p1 => if ap = p1 then idx1 else a
              | _, _ => a
            if addOp0 = idx1 then
              match cb with
              | .cnst n => some (n = 1, tr2)
              | _ => some (false, tr2)
            else some (false, tr2)
          | _ => some (false, tr2)
  | _, _ => some (false, tr)

/-- Per-candidate-load body of `checkForRangedPattern`
(`IndirectionDetector.cpp:461-520`): carries the per-loop-body local
pattern set alongside the detector state.  An edge is recorded when the
access resolves to a different base value than the range's start load
and both are registered; the dedup key enters
`detectedRangedPatterns` before the node-id validity check, as in the
source. -/
def rangedAccessLoop (fuel : Nat) (M : IRModule) :
    DetSt → List (V × V) → V × V → List (V × V) → Option DetSt
  | st, _, _, [] => some st
  | st, localPats, sl, (access, aptr) :: rest =>
    match getUltimateBase fuel M st.tracker aptr with
    | none => none
    | some (accessBase, tra) =>
      match getUltimateBase fuel M tra sl.2 with
      | none => none
      | some (startBase, trb) =>
        let st1 := { st with tracker := trb }
        if accessBase ≠ startBase ∧ isRegistered trb accessBase ∧
            isRegistered trb startBase then
          if localPats.contains (startBase, accessBase) then
            rangedAccessLoop fuel M st1 localPats sl rest
          else
            let localPats1 := localPats ++ [(startBase, accessBase)]
            let key : EdgeKeyV := (startBase, accessBase, .ranged)
            if st1.detectedRangedPatterns.contains key then
              rangedAccessLoop fuel M st1 localPats1 sl rest
            else
              let st2 := { st1 with
                detectedRangedPatterns := st1.detectedRangedPatterns ++ [key] }
              let srcId := if isRegistered trb startBase
                           then getNodeId trb startBase else UINT32MAX
              let destId := if isRegistered trb accessBase
                            then getNodeId trb accessBase else UINT32MAX
              let st3 :=
                if srcId ≠ UINT32MAX ∧ destId ≠ UINT32MAX then
                  { st2 with indirections := st2.indirections ++
                    [{ srcBase := startBase, destBase := accessBase,
                       srcNodeId := srcId, destNodeId := destId,
                       itype := .ranged, access := access }] }
                else st2
              rangedAccessLoop fuel M st3 localPats1 sl rest
        else rangedAccessLoop fuel M st1 localPats sl rest

/-- The loads of a basic block, paired with their pointer operands. -/
def blockLoads (blk : List Inst) : List (V × V) :=
  blk.filterMap (fun i => match i with
    | .oper (V.load lid p) => some (V.load lid p, p)
    | _ => none)

/-- Per-comparison body of `checkForRangedPattern`
(`IndirectionDetector.cpp:431-523`): the loop block is the first
successor of the last conditional branch using the comparison; its loads
are then screened by `rangedAccessLoop`. -/
def rangedCmpUsers (fuel : Nat) (M : IRModule) (F : Func) :
    DetSt → V × V → List Inst → Option DetSt
  | st, _, [] => some st
  | st, sl, u :: rest =>
    match u with
    | .oper (V.icmp cid a b) =>
      let cmp := V.icmp cid a b
      let loopBB : Option Nat := (usersIn M.insts cmp).foldl (fun acc i =>
        match i with
        | .br _ (some _) s0 _ => some s0
        | _ => acc) none
      match loopBB with
      | none => rangedCmpUsers fuel M F st sl rest
      | some bb =>
        match rangedAccessLoop fuel M st [] sl
            (blockLoads (F.blocks.getD bb [])) with
        | none => none
        | some st1 => rangedCmpUsers fuel M F st1 sl rest
    | _ => rangedCmpUsers fuel M F st sl rest

/-- Iteration of `checkForRangedPattern` over the end-value candidates. -/
def rangedEndVals (fuel : Nat) (M : IRModule) (F : Func) :
    DetSt → V × V → List V → Option DetSt
  | st, _, [] => some st
  | st, sl, ev :: rest =>
    match rangedCmpUsers fuel M F st sl (usersIn M.insts ev) with
    | none => none
    | some st1 => rangedEndVals fuel M F st1 sl rest

/-- `IndirectionDetector::checkForRangedPattern`
(`IndirectionDetector.cpp:396-525`).  The start-value store/reload chain
(lines 400-416) is computed by the source but never read afterwards, so
only the end-value chain is materialized here. -/
def checkForRangedPattern (fuel : Nat) (M : IRModule) (F : Func)
    (st : DetSt) (sl el : V × V) : Option DetSt :=
  let endVals := (storeReloadChain M el.1).foldl
    (fun acc v => if acc.contains v then acc else acc ++ [v]) [el.1]
  rangedEndVals fuel M F st sl endVals

/-- Inner pair loop of `identifyRangedIndirections`
(`IndirectionDetector.cpp:276-287`). -/
def rangedInnerScan (fuel : Nat) (M : IRModule) (F : Func) :
    DetSt → V × V → List (V × V) → Option DetSt
  | st, _, [] => some st
  | st, l1, l2 :: rest =>
    match areConsecutiveArrayLoads fuel M st.tracker l1.1 l2.1 with
    | none => none
    | some (consecutive, tr) =>
      let st1 := { st with tracker := tr }
      if consecutive then
        match checkForRangedPattern fuel M F st1 l1 l2 with
        | none => none
        | some st2 => rangedInnerScan fuel M F st2 l1 rest
      else rangedInnerScan fuel M F st1 l1 rest

/-- Outer pair loop of `identifyRangedIndirections`
(`IndirectionDetector.cpp:273-288`). -/
def rangedPairScan (fuel : Nat) (M : IRModule) (F : Func) :
    DetSt → List (V × V) → Option DetSt
  | st, [] => some st
  | st, l1 :: rest =>
    match rangedInnerScan fuel M F st l1 rest with
    | none => none
    | some st1 => rangedPairScan fuel M F st1 rest

/-- `IndirectionDetector::identifyRangedIndirections`
(`IndirectionDetector.cpp:257-289`). -/
def identifyRangedIndirections (fuel : Nat) (M : IRModule) (F : Func)
    (st : DetSt) : Option DetSt :=
  rangedPairScan fuel M F st (blockLoads F.insts)

/-- `IndirectionDetector::detectIndirections`
(`IndirectionDetector.cpp:44-62`): clears `indirections` — but not the
two persistent dedup sets — runs both detection passes, then overwrites
every recorded entry's node ids from the `allocations` vector.  Returns
the resulting entries together with the final session state. -/
def detectIndirections (fuel : Nat) (M : IRModule) (F : Func)
    (allocs : List AllocInfoD) (accPats : List (Nat × List AccessorPat))
    (st : DetSt) : Option (List IndirInfo × DetSt) :=
  let st0 := { st with indirections := [] }
  match identifySingleValuedIndirections fuel M F accPats st0 with
  | none => none
  | some st1 =>
    match identifyRangedIndirections fuel M F st1 with
    | none => none
    | some st2 =>
      let filled := st2.indirections.map (fun i =>
        { i with srcNodeId := getNodeIdFromBase i.srcBase allocs,
                 destNodeId := getNodeIdFromBase i.destBase allocs })
      some (filled, { st2 with indirections := filled })

/-! ## DIGInsertion: trigger-selection policy

Source: `DIGInsertion.cpp:216-284` and the function-id constants of
`DIGInsertion.cpp:14-39`.  Depth edges are the
`(srcNodeId, destNodeId)` projections of the recorded indirections. -/

/-- Trigger/squash function ids (`DIGInsertion.cpp:14-39`). -/
def UpToOffset : Nat := 5
/-- `StaticOffset_1` (look-ahead distance 1). -/
def StaticOffset_1 : Nat := 6
/-- `StaticOffset_2` (look-ahead distance 2). -/
def StaticOffset_2 : Nat := 7
/-- `StaticOffset_8` (look-ahead distance 8). -/
def StaticOffset_8 : Nat := 9
/-- `StaticOffset_16` (look-ahead distance 16). -/
def StaticOffset_16 : Nat := 10
/-- `NeverSquash`. -/
def NeverSquash : Nat := 24

/-- The prefetch look-ahead distance encoded by a `StaticOffset_N`
selector (from the constant names of `DIGInsertion.cpp:20-26`). -/
def lookAheadDistance (sel : Nat) : Nat :=
  if sel = StaticOffset_1 then 1
  else if sel = StaticOffset_2 then 2
  else if sel = StaticOffset_8 then 8
  else if sel = StaticOffset_16 then 16
  else 0

/-- State of the BFS in `calculateDIGDepthFromNode`: the `nodeDepths`
map, the `toVisit` queue and the running `maxDepth`. -/
structure DigSt : Type where
  nodeDepths : List (Nat × Nat)
  queue : List Nat
  maxDepth : Nat
  deriving DecidableEq

/-- Lookup in the `nodeDepths` map. -/
def depthLookup (ds : List (Nat × Nat)) (n : Nat) : Option Nat :=
  (ds.find? (fun p => p.1 = n)).map (fun p => p.2)

/-- Update/insert in the `nodeDepths` map. -/
def depthSet (ds : List (Nat × Nat)) (n d : Nat) : List (Nat × Nat) :=
  if (ds.find? (fun p => p.1 = n)).isSome then
    ds.map (fun p => if p.1 = n then (n, d) else p)
  else ds ++ [(n, d)]

/-- The per-popped-node edge loop of `calculateDIGDepthFromNode`
(`DIGInsertion.cpp:270-280`), parameterized by the relaxation test
`upd old new` deciding whether an already-recorded depth `old` is
replaced by `new`.  The source uses `nodeDepths[dest] > newDepth`
(replace when the new depth is strictly smaller); the specified policy
uses the opposite test. -/
def digEdgeFold (upd : Nat → Nat → Bool) (cur : Nat) :
    DigSt → List (Nat × Nat) → DigSt
  | st, [] => st
  | st, e :: rest =>
    if e.1 = cur then
      let newDepth := (depthLookup st.nodeDepths cur).getD 0 + 1
      let doUpdate := match depthLookup st.nodeDepths e.2 with
        | none => true
        | some d => upd d newDepth
      if doUpdate then
        digEdgeFold upd cur
          { nodeDepths := depthSet st.nodeDepths e.2 newDepth,
            queue := st.queue ++ [e.2],
            maxDepth := max st.maxDepth newDepth } rest
      else digEdgeFold upd cur st rest
    else digEdgeFold upd cur st rest

/-- The outer BFS loop of `calculateDIGDepthFromNode`
(`DIGInsertion.cpp:265-281`), with an explicit iteration budget. -/
def digLoop (upd : Nat → Nat → Bool) (edges : List (Nat × Nat)) :
    Nat → DigSt → Nat
  | 0, st => st.maxDepth
  | fuel+1, st =>
    match st.queue with
    | [] => st.maxDepth
    | cur :: rest =>
      digLoop upd edges fuel (digEdgeFold upd cur { st with queue := rest } edges)

/-- `DIGInsertion::calculateDIGDepthFromNode`
(`DIGInsertion.cpp:254-284`).  The recorded depth of a reachable node is
replaced only when a strictly *smaller* depth is found
(`nodeDepths[info.destNodeId] > newDepth`, line 273-274), and the
returned value is the maximum depth ever assigned. -/
def calculateDIGDepthFromNode (fuel : Nat) (nodeId : Nat)
    (edges : List (Nat × Nat)) : Nat :=
  digLoop (fun old newd => newd < old) edges fuel
    { nodeDepths := [(nodeId, 0)], queue := [nodeId], maxDepth := 0 }

/-- The same BFS with the relaxation direction the specification
describes (update only when a strictly *larger* depth is found).
Modelled from the spec for comparison with the source's computation. -/
def calculateDIGDepthSpecRelax (fuel : Nat) (nodeId : Nat)
    (edges : List (Nat × Nat)) : Nat :=
  digLoop (fun old newd => old < newd) edges fuel
    { nodeDepths := [(nodeId, 0)], queue := [nodeId], maxDepth := 0 }

/-- `DIGInsertion::getTriggerFunctionForNode` (`DIGInsertion.cpp:233-252`):
depth ≥ 4 selects `StaticOffset_1`, depth 3 `StaticOffset_2`, depth 2
`StaticOffset_8`, anything smaller `StaticOffset_16`. -/
def getTriggerFunctionForNode (fuel : Nat) (nodeId : Nat)
    (edges : List (Nat × Nat)) : Nat :=
  let depth := calculateDIGDepthFromNode fuel nodeId edges
  if depth ≥ 4 then StaticOffset_1
  else if depth = 3 then StaticOffset_2
  else if depth = 2 then StaticOffset_8
  else StaticOffset_16

/-- The claim's depth-to-selector mapping, written from the spec's words
(depth ≥ 4 → distance 1, 3 → 2, 2 → 8, ≤ 1 → 16). -/
def specSelectorForDepth (d : Nat) : Nat :=
  if d ≥ 4 then StaticOffset_1
  else if d = 3 then StaticOffset_2
  else if d = 2 then StaticOffset_8
  else StaticOffset_16

/-- `∃` a forward path of exactly `n` edges from `a` to `b`. -/
def hasPathOfLen (edges : List (Nat × Nat)) : Nat → Nat → Nat → Bool
  | 0, a, b => a = b
  | n+1, a, b => edges.any (fun e => e.1 = a && hasPathOfLen edges n e.2 b)

/-- `DIGInsertion::getSquashFunctionId` (`DIGInsertion.cpp:228-231`). -/
def getSquashFunctionId : Nat := NeverSquash

/-! ## ElementSizeInference and allocation handling

Source: the `ElementSizeInference.cpp` part of `src/unnamed/part_005`
(lines 62-222) and `ProdigyPass::handleAllocation` of
`src/unnamed/part_007` (lines 223-336).  The usage-pattern and
affine-stride strategies (`analyzeUsagePatterns`, `analyzeSCEVPatterns`)
consume the external data-layout and scalar-evolution oracles; they are
modelled as oracle parameters `usage`/`scev` returning the enriched
record on success, `none` on failure, exactly as the boolean-returning
C++ strategies report.  The caller-name string tests of
`shouldTrackAllocation`/`shouldFilterAllocation` are modelled as boolean
features of a `CallerCtx`, one per source test. -/

/-- The recognized allocation callees (`part_007:174-176`).
`znwm`/`znam` stand for the mangled `_Znwm`/`_Znam` C++ operators. -/
inductive AllocCallee : Type where
  | malloc | calloc | realloc | znwm | znam
  deriving DecidableEq

/-- `AllocInfo` as enriched by size inference (`part_005`; the `-1`
defaults mean unknown).  `inferredElementType` is modelled by the byte
size of the integer type the calloc switch would pick. -/
structure AllocRec : Type where
  callee : AllocCallee
  args : List V
  numElements : Option V := none
  elementSize : Option V := none
  constantElementSize : Int := -1
  constantNumElements : Int := -1
  inferredElementType : Option Int := none
  deriving DecidableEq

/-- `CallInst::getArgOperand` (total model; the C++ behaviour on an
out-of-range index is undefined and never exercised below). -/
def getArgOperand (args : List V) (i : Nat) : V := args.getD i (V.other 0)

/-- `ElementSizeInference::analyzeAllocationArgument`
(`part_005:169-222`): the `count * constant` form succeeds only for a
per-element constant in {1,2,4,8,12,16,24,32}; the `count << shift` form
succeeds for any constant shift, with element size `1 << shift` (the
model writes `2 ^ shift`; a negative shift is undefined behaviour in the
source and modelled arbitrarily as size 1). -/
def analyzeAllocationArgument (sizeArg : V) (r : AllocRec) : Option AllocRec :=
  let p1 : Option AllocRec :=
    match sizeArg with
    | .binop _ .mul lhs rhs =>
      let cm : Option (Int × V) := match rhs with
        | .cnst n => some (n, lhs)
        | _ => match lhs with
          | .cnst n => some (n, rhs)
          | _ => none
      match cm with
      | some (size, count) =>
        if size = 1 ∨ size = 2 ∨ size = 4 ∨ size = 8 ∨
            size = 12 ∨ size = 16 ∨ size = 24 ∨ size = 32 then
          some { r with elementSize := some (V.cnst size),
                        numElements := some count,
                        constantElementSize := size }
        else none
      | none => none
    | _ => none
  match p1 with
  | some r1 => some r1
  | none =>
    match sizeArg with
    | .binop _ .shl count shiftAmt =>
      match shiftAmt with
      | .cnst sh =>
        let elemSize : Int := 2 ^ sh.toNat
        some { r with elementSize := some (V.cnst elemSize),
                      numElements := some count,
                      constantElementSize := elemSize }
      | _ => none
    | _ => none

/-- `ElementSizeInference::inferElementSizeFromMalloc`
(`part_005:78-98`): the strategies in priority order, then the
byte-array default. -/
def inferElementSizeFromMalloc (usage scev : AllocRec → Option AllocRec)
    (r : AllocRec) : AllocRec :=
  let sizeArg := getArgOperand r.args 0
  match analyzeAllocationArgument sizeArg r with
  | some r1 => r1
  | none =>
    match usage r with
    | some r1 => r1
    | none =>
      match scev r with
      | some r1 => r1
      | none => { r with elementSize := some (V.cnst 1),
                         numElements := some sizeArg }

/-- `ElementSizeInference::inferElementSizeFromCalloc`
(`part_005:100-126`): the two argument positions are copied verbatim
into count and element size; constants are additionally extracted. -/
def inferElementSizeFromCalloc (r : AllocRec) : AllocRec :=
  let countArg := getArgOperand r.args 0
  let sizeArg := getArgOperand r.args 1
  let r1 := { r with numElements := some countArg, elementSize := some sizeArg }
  let r2 := match sizeArg with
    | .cnst n =>
      { r1 with constantElementSize := n,
                inferredElementType :=
                  if n = 1 ∨ n = 2 ∨ n = 4 ∨ n = 8 then some n
                  else r1.inferredElementType }
    | _ => r1
  match countArg with
  | .cnst m => { r2 with constantNumElements := m }
  | _ => r2

/-- `ElementSizeInference::inferElementSizeFromNew`
(`part_005:128-167`): unwrap a `-1`-guarded select, treat a constant
size that is a multiple of 8 and at most 256 as a single object, else
fall through to the malloc analysis with the size remembered as the
count. -/
def inferElementSizeFromNew (usage scev : AllocRec → Option AllocRec)
    (r : AllocRec) : AllocRec :=
  let sizeArg0 := getArgOperand r.args 0
  let sizeArg :=
    match sizeArg0 with
    | .select _ _ t f =>
      let sA := if (match t with | .cnst n => n == -1 | _ => false)
                then f else sizeArg0
      if (match f with | .cnst n => n == -1 | _ => false) then t else sA
    | _ => sizeArg0
  match sizeArg with
  | .cnst n =>
    if n % 8 = 0 ∧ n ≤ 256 then
      { r with elementSize := some (V.cnst n),
               numElements := some (V.cnst 1),
               constantElementSize := n }
    else inferElementSizeFromMalloc usage scev { r with numElements := some sizeArg }
  | _ => inferElementSizeFromMalloc usage scev { r with numElements := some sizeArg }

/-- `ElementSizeInference::inferElementSize` (`part_005:62-76`): the
dispatcher handles `malloc`, `calloc` and the two `new` operators; any
other recognized callee — in particular `realloc` — falls through with
the record untouched. -/
def inferElementSize (usage scev : AllocRec → Option AllocRec)
    (r : AllocRec) : AllocRec :=
  match r.callee with
  | .malloc => inferElementSizeFromMalloc usage scev r
  | .calloc => inferElementSizeFromCalloc r
  | .znwm => inferElementSizeFromNew usage scev r
  | .znam => inferElementSizeFromNew usage scev r
  | .realloc => r

/-- The caller-name features consulted by the allocation filters, one
boolean per string test of `part_007:223-260` and `325-336`. -/
structure CallerCtx : Type where
  kmpcStart : Bool := false
  ompDotStart : Bool := false
  kmpStart : Bool := false
  ompAnywhere : Bool := false
  gompStart : Bool := false
  dunderStart : Bool := false
  mainStart : Bool := false
  ompDotAny : Bool := false
  kmpcAny : Bool := false
  ompUnderAny : Bool := false
  gompAny : Bool := false
  deriving DecidableEq

/-- `ProdigyPass::shouldTrackAllocation` (`part_007:223-260`). -/
def shouldTrackAllocation (ctx : CallerCtx) (args : List V) : Bool :=
  if ctx.kmpcStart || ctx.ompDotStart || ctx.kmpStart || ctx.ompAnywhere then false
  else if ctx.gompStart then false
  else if ctx.dunderStart && !ctx.mainStart then false
  else match getArgOperand args 0 with
    | .cnst n => if n = 65536 then false else true
    | _ => true

/-- `ProdigyPass::shouldFilterAllocation` (`part_007:325-336`). -/
def shouldFilterAllocation (ctx : CallerCtx) : Bool :=
  ctx.ompDotAny || ctx.kmpcAny || ctx.ompUnderAny || ctx.gompAny

/-- `ProdigyPass::handleAllocation` (`part_007:262-323`): apply the
filters, run inference, then force the two size fields to be present —
element size defaults to the constant 1, element count to the call's
first argument (or 1 for an argument-less call).  Node-id assignment and
tracker registration (lines 270, 282, 307-311) concern bookkeeping
modelled in the insertion-phase section and are not part of the record
returned here.  `applySizeDefaults` is the defaulting block of
`part_007:291-304`. -/
def applySizeDefaults (args : List V) (r1 : AllocRec) : AllocRec :=
  let r2 := if r1.elementSize = none
            then { r1 with elementSize := some (V.cnst 1) } else r1
  if r2.numElements = none then
    if args.length > 0
    then { r2 with numElements := some (getArgOperand args 0) }
    else { r2 with numElements := some (V.cnst 1) }
  else r2

/-- `ProdigyPass::handleAllocation` proper: filters, inference, then the
defaulting block. -/
def handleAllocation (ctx : CallerCtx) (usage scev : AllocRec → Option AllocRec)
    (callee : AllocCallee) (args : List V) : Option AllocRec :=
  if ¬ shouldTrackAllocation ctx args then none
  else if shouldFilterAllocation ctx then none
  else some (applySizeDefaults args
    (inferElementSize usage scev { callee := callee, args := args }))

/-! ## DIGInsertion: runtime-call insertion phase

Source: `DIGInsertion::insertRuntimeCalls` / `insertNodeRegistrations` /
`insertEdges` / `insertTriggerEdges` (`DIGInsertion.cpp:155-519`) and
the phase-3 driver of `ProdigyPass::runOnModule`
(`src/unnamed/part_007:107-125`).

The membership questions — which edges enter the `registeredEdges` dedup
set and which nodes get a `TRIGGER` record — depend only on the base
values, node ids and per-function edge lists, which this section models
abstractly: base values by their identity (`Nat`), functions by their
index in the processing order.  The model follows the non-`main` branch
of `insertRuntimeCalls` (lines 195-200); the `main` branch differs in
insertion positions and in gating `insertEdges` behind an existing node
registration, which the statements below avoid by using non-`main`
functions.  OpenMP-named functions are skipped by the driver
(`part_007:112-116`); the processing-order list contains the surviving
functions. -/

/-- The fields of `AllocInfo` read by the insertion phase; `basePtr` is
the allocation's base value (by identity), `funcIdx` the function
containing the allocation call. -/
structure AllocD : Type where
  nodeId : Nat
  basePtr : Nat
  funcIdx : Nat
  registered : Bool := false
  deriving DecidableEq

/-- A recorded indirection as the insertion phase consumes it. -/
structure EdgeD : Type where
  srcBase : Nat
  destBase : Nat
  srcNodeId : Nat
  destNodeId : Nat
  kind : IndirType
  deriving DecidableEq

/-- `EdgeKey` over abstract base identities. -/
abbrev EdgeKeyD := Nat × Nat × IndirType

/-- `DIGInsertion::insertNodeRegistrations` (`DIGInsertion.cpp:286-351`),
restricted to the `registered` bookkeeping: every not-yet-registered
allocation of the current function becomes registered. -/
def insertNodeRegistrations (f : Nat) (allocs : List AllocD) : List AllocD :=
  allocs.map (fun a =>
    if a.funcIdx = f ∧ ¬ a.registered then { a with registered := true } else a)

/-- `DIGInsertion::insertEdges` (`DIGInsertion.cpp:353-432`), restricted
to the `registeredEdges` bookkeeping: each of the function's recorded
indirections enters the dedup set unless its key is already present or a
node id is invalid. -/
def insertEdges (edgesF : List EdgeD) (reg : List EdgeKeyD) : List EdgeKeyD :=
  edgesF.foldl (fun acc e =>
    let key : EdgeKeyD := (e.srcBase, e.destBase, e.kind)
    if acc.contains key then acc
    else if e.srcNodeId = UINT32MAX ∨ e.destNodeId = UINT32MAX then acc
    else acc ++ [key]) reg

/-- `DIGInsertion::insertTriggerEdges` (`DIGInsertion.cpp:434-519`): the
incoming-edge screen collects the `destBase` values of the current
function's indirection list and of the edges registered so far; every
registered allocation of the current function whose base value is not
among them receives a trigger record.  Returns the triggered node ids. -/
def insertTriggerEdges (f : Nat) (allocs : List AllocD) (edgesF : List EdgeD)
    (reg : List EdgeKeyD) : List Nat :=
  let incoming : List Nat :=
    edgesF.map (fun e => e.destBase) ++ reg.map (fun k => k.2.1)
  allocs.filterMap (fun a =>
    if a.funcIdx = f ∧ a.registered ∧ ¬ incoming.contains a.basePtr
    then some a.nodeId else none)

/-- `DIGInsertion::insertRuntimeCalls`, non-`main` branch
(`DIGInsertion.cpp:155-201`): nodes, then edges, then triggers; a no-op
when there are neither allocations nor indirections (line 160). -/
def insertRuntimeCalls (f : Nat) (edgesF : List EdgeD) (allocs : List AllocD)
    (reg : List EdgeKeyD) : List AllocD × List EdgeKeyD × List Nat :=
  if allocs.isEmpty ∧ edgesF.isEmpty then (allocs, reg, [])
  else
    let allocs1 := insertNodeRegistrations f allocs
    let reg1 := insertEdges edgesF reg
    let trig := insertTriggerEdges f allocs1 edgesF reg1
    (allocs1, reg1, trig)

/-- The phase-3 loop of `ProdigyPass::runOnModule`
(`part_007:107-125`): process the functions in order, accumulating the
allocation flags, the cross-function edge-dedup set, and the emitted
trigger records. -/
def insertPhase (edges : Nat → List EdgeD) :
    List Nat → List AllocD × List EdgeKeyD × List Nat →
    List AllocD × List EdgeKeyD × List Nat
  | [], s => s
  | f :: rest, (allocs, reg, trig) =>
    let s1 := insertRuntimeCalls f (edges f) allocs reg
    insertPhase edges rest (s1.1, s1.2.1, trig ++ s1.2.2)

/-- Run the insertion phase from a fresh session and return the emitted
trigger node ids. -/
def runInsertionPhase (funcs : List Nat) (edges : Nat → List EdgeD)
    (allocs : List AllocD) : List Nat :=
  (insertPhase edges funcs (allocs, [], [])).2.2

/-! ## Specification-worded predicates (for comparison with the source) -/

/-- The similarity predicate as the specification words it: equal
index-list length; a position where both indices are constants must
match exactly; any position holding a non-constant index is a wildcard
that always matches (in particular a constant paired with a
non-constant matches).  Modelled from the spec. -/
def areGEPsSimilarSpec (l1 l2 : List V) : Bool :=
  l1.length == l2.length &&
    (l1.zip l2).all (fun p => match p with
      | (.cnst a, .cnst b) => a == b
      | _ => true)

/-- The plausible per-element sizes of inference strategy 1. -/
def plausibleSize (n : Int) : Bool :=
  n == 1 || n == 2 || n == 4 || n == 8 || n == 12 || n == 16 || n == 24 || n == 32

/-- An always-failing strategy oracle (a function with no recognizable
usage or affine pattern). -/
def oracleNone : AllocRec → Option AllocRec := fun _ => none

/-- A caller context passing every allocation filter (an ordinary user
function name). -/
def benignCtx : CallerCtx := {}

/-! ## Concrete instances used by the theorems below -/

/-- Cyclic provenance (C5): global `@g1` holds a value loaded from
`@g2` and vice versa — each location's stored value traces back to a
load from the other. -/
def cycLoadG2 : V := .load 10 (.global 2)

/-- The load from `@g1` of the cyclic-provenance module. -/
def cycLoadG1 : V := .load 11 (.global 1)

/-- The cyclic-provenance module: `store (load @g2), @g1` and
`store (load @g1), @g2`. -/
def cycModule : IRModule :=
  ⟨[⟨[[ .oper cycLoadG2, .store 20 cycLoadG2 (.global 1),
        .oper cycLoadG1, .store 21 cycLoadG1 (.global 2) ]]⟩]⟩

/-- Alias module (C9): a registered allocation stored to global `@g1`. -/
def aliasModule : IRModule :=
  ⟨[⟨[[ .store 20 (V.alloc 0) (.global 1) ]]⟩]⟩

/-- Tracker with just the allocation of `aliasModule` registered. -/
def aliasTracker : TrackerMap := [(V.alloc 0, 0)]

/-- C4/C1 instance: index array `B` (node 0). -/
def allocB : V := .alloc 0
/-- C4 instance: data array `A` (node 1). -/
def allocA : V := .alloc 1
/-- `&B[i]` for an opaque loop index `i`. -/
def gepB : V := .gep 10 allocB (.cons (.other 50) .nil)
/-- `B[i]`. -/
def loadIdx : V := .load 11 gepB
/-- `&A[B[i]]`. -/
def gepA : V := .gep 12 allocA (.cons loadIdx .nil)
/-- `A[B[i]]`. -/
def loadOut : V := .load 13 gepA
/-- A function whose body is exactly one `A[B[i]]` access. -/
def abFunc : Func := ⟨[[ .oper gepB, .oper loadIdx, .oper gepA, .oper loadOut ]]⟩
/-- The single-function module around `abFunc`. -/
def abModule : IRModule := ⟨[abFunc]⟩
/-- The two allocations of `abModule` as the detector receives them. -/
def abAllocs : List AllocInfoD := [⟨allocB, 0⟩, ⟨allocA, 1⟩]
/-- Fresh detector session with both allocations registered. -/
def abSession : DetSt := { tracker := [(allocB, 0), (allocA, 1)] }

/-- First `detectIndirections` call of the idempotence experiment. -/
def abFirstCall : Option (List IndirInfo × DetSt) :=
  detectIndirections 20 abModule abFunc abAllocs [] abSession

/-- Second `detectIndirections` call, on the session state left by the
first. -/
def abSecondCall : Option (List IndirInfo × DetSt) :=
  match abFirstCall with
  | some (_, st1) => detectIndirections 20 abModule abFunc abAllocs [] st1
  | none => none

/-- C1 instance: a call to an accessor function whose `this` argument is
the registered allocation node 3. -/
def accCall : V := .callv 20 (some 0) (.cons (.alloc 7) .nil)
/-- The function containing only the accessor call. -/
def accFunc : Func := ⟨[[ .oper accCall ]]⟩
/-- The single-function module around `accFunc`. -/
def accModule : IRModule := ⟨[accFunc]⟩
/-- One stored accessor pattern for function index 0. -/
def accPatterns : List (Nat × List AccessorPat) :=
  [(0, [⟨.other 1, .other 2, .other 3⟩])]
/-- Detector session for the accessor experiment. -/
def accSession : DetSt := { tracker := [(.alloc 7, 3)] }
/-- Allocations for the accessor experiment. -/
def accAllocs : List AllocInfoD := [⟨.alloc 7, 3⟩]

/-- C2 instance: the diamond graph 0→1, 1→2, 0→2 whose longest forward
path from node 0 has two edges. -/
def diamondEdges : List (Nat × Nat) := [(0, 1), (1, 2), (0, 2)]

/-- C8 instance: allocation node 0 lives in function 0, allocation node
1 in function 1. -/
def crossAllocs : List AllocD :=
  [⟨0, 0, 0, false⟩, ⟨1, 1, 1, false⟩]

/-- C8 instance: the only indirection, detected in function 1, targets
node 0 (allocated in the earlier-processed function 0). -/
def crossEdges : Nat → List EdgeD := fun f =>
  if f = 1 then [⟨1, 0, 1, 0, .singleValued⟩] else []

/-- Whether a value is a `ConstantInt`. -/
def isConstV : V → Bool
  | .cnst _ => true
  | _ => false

/-- The two persistent dedup sets of a detector session only ever grow:
every key present in `st` is still present in `st2`. -/
def DetGrows (st st2 : DetSt) : Prop :=
  (∀ k ∈ st.detectedPatterns, k ∈ st2.detectedPatterns) ∧
  (∀ k ∈ st.detectedRangedPatterns, k ∈ st2.detectedRangedPatterns)

/-- The registrations of a tracker map only ever grow: every pointer
registered in `a` is still registered in `b`. -/
def RegGrows (a b : TrackerMap) : Prop :=
  ∀ p, isRegistered a p = true → isRegistered b p = true

/-! # Theorems -/

/-- Pointwise characterization of the index-comparison step of
`areGEPsSimilar`: a position passes exactly when the two indices agree
on constancy and, when both are constants, on the value. -/
theorem gepIdxPairOk_iff (a b : V) :
    gepIdxPairOk a b = true ↔
      (isConstV a = isConstV b ∧ ∀ m k : Int, a = V.cnst m → b = V.cnst k → m = k) := by
  cases a <;> cases b <;> simp [gepIdxPairOk, isConstV]

/-- C7 (counterexample).  The claim says a constant index paired with a
non-constant index in the same position still counts as matching; on the
index lists `[0, 1]` and `[0, ⋆]` the specified predicate accepts while
`areGEPsSimilar` rejects. -/
theorem areGEPsSimilar_wildcard_counterexample :
    areGEPsSimilarSpec [V.cnst 0, V.cnst 1] [V.cnst 0, V.other 9] = true ∧
    areGEPsSimilar [V.cnst 0, V.cnst 1] [V.cnst 0, V.other 9] = false ∧
    areGEPsSimilarSpec [V.cnst 5] [V.cnst 5] = true ∧
    areGEPsSimilar [V.cnst 5] [V.cnst 5] = false := by
  decide

/-- C7 (amended).  `areGEPsSimilar` returns true exactly when the two
index lists have equal length at least 2 and every position agrees on
constancy — a constant index paired with a non-constant index does NOT
match — with equal constants wherever both are constant; lists shorter
than two indices never compare similar. -/
theorem areGEPsSimilar_characterization (l1 l2 : List V) :
    areGEPsSimilar l1 l2 = true ↔
      (l1.length = l2.length ∧ 2 ≤ l1.length ∧
        ∀ x ∈ l1.zip l2, isConstV x.1 = isConstV x.2 ∧
          ∀ m k : Int, x.1 = V.cnst m → x.2 = V.cnst k → m = k) := by
  unfold areGEPsSimilar
  split_ifs with h1 h2
  · simp_all
  · rw [List.all_eq_true]
    constructor
    · intro h
      refine ⟨by omega, by omega, fun x hx => (gepIdxPairOk_iff x.1 x.2).mp (h x hx)⟩
    · intro ⟨_, _, h⟩ x hx
      exact (gepIdxPairOk_iff x.1 x.2).mpr (h x hx)
  · simp_all

/-- Two-step unwinding of the resolver on the cyclic-provenance module:
resolving the load from `@g1` hands off to the load from `@g2` and back,
consuming budget forever. -/
theorem getBasePointer_cyc_aux :
    ∀ n, getBasePointer n cycModule [] cycLoadG1 = none ∧
      getBasePointer n cycModule [] cycLoadG2 = none := by
  intro n
  induction n with
  | zero => exact ⟨rfl, rfl⟩
  | succ k ih =>
    refine ⟨?_, ?_⟩
    · show getBasePointer k cycModule [] cycLoadG2 = none
      exact ih.2
    · show getBasePointer k cycModule [] cycLoadG1 = none
      exact ih.1

/-- C5 (counterexample).  The claim says every resolver call terminates
because the traversal is depth- or visited-set-bounded; on the concrete
cyclic store/load provenance of `cycModule` (two globals whose stored
values each trace back to a load from the other) no recursion budget
ever completes the call — the C++ recursion, which has no bound at all,
never returns. -/
theorem getBasePointer_cycle_counterexample :
    ¬ ∃ n r, getBasePointer n cycModule [] cycLoadG1 = some r := by
  rintro ⟨n, r, h⟩
  rw [(getBasePointer_cyc_aux n).1] at h
  exact Option.noConfusion h

/-- C5 (amended).  `BasePointerTracker::getBasePointer` has no depth or
visited-set bound: on the cyclic provenance of `cycModule` the
resolution never finishes for any recursion budget, while ordinary
acyclic chains (such as a registered allocation stored to a global)
resolve within a small budget. -/
theorem getBasePointer_cycle_diverges :
    (∀ n, getBasePointer n cycModule [] cycLoadG1 = none) ∧
    getBasePointer 2 aliasModule aliasTracker (V.global 1) =
      some (V.alloc 0, [(V.alloc 0, 0), (V.global 1, 0)]) :=
  ⟨fun n => (getBasePointer_cyc_aux n).1, rfl⟩

/-- C9 (counterexample).  The claim says the memoization has no effect
observable through `isRegistered`/`getNodeId`; resolving global `@g1`
of `aliasModule` registers the global, flipping `isRegistered` from
false to true. -/
theorem resolver_memo_observable_counterexample :
    isRegistered aliasTracker (V.global 1) = false ∧
    getBasePointer 2 aliasModule aliasTracker (V.global 1) =
      some (V.alloc 0, [(V.alloc 0, 0), (V.global 1, 0)]) ∧
    isRegistered [(V.alloc 0, 0), (V.global 1, 0)] (V.global 1) = true ∧
    getNodeId aliasTracker (V.global 1) = UINT32MAX ∧
    getNodeId [(V.alloc 0, 0), (V.global 1, 0)] (V.global 1) = 0 := by
  decide

/-- C2 (counterexample).  On the diamond graph 0→1→2 with shortcut 0→2,
the longest forward path from node 0 has two edges (and none of three),
so the claimed policy yields depth 2 and look-ahead distance 8
(`StaticOffset_8`); the source's BFS — which only lowers recorded
depths — computes 1 and selects distance 16 (`StaticOffset_16`). -/
theorem digDepth_diamond_counterexample :
    calculateDIGDepthFromNode 10 0 diamondEdges = 1 ∧
    calculateDIGDepthSpecRelax 10 0 diamondEdges = 2 ∧
    hasPathOfLen diamondEdges 2 0 2 = true ∧
    ((List.range 3).all (fun b => !(hasPathOfLen diamondEdges 3 0 b))) = true ∧
    getTriggerFunctionForNode 10 0 diamondEdges = StaticOffset_16 ∧
    specSelectorForDepth 2 = StaticOffset_8 ∧
    StaticOffset_16 ≠ StaticOffset_8 := by
  decide

/-- C2 (amended).  The trigger selector is the claimed depth-to-distance
mapping (≥4 → 1, 3 → 2, 2 → 8, otherwise 16) applied to
`calculateDIGDepthFromNode` — whose BFS updates a reachable node's
recorded depth only when a strictly *smaller* depth is found, not the
longest-forward-path depth the claim describes. -/
theorem getTriggerFunctionForNode_mapping (fuel nodeId : Nat)
    (edges : List (Nat × Nat)) :
    getTriggerFunctionForNode fuel nodeId edges =
      specSelectorForDepth (calculateDIGDepthFromNode fuel nodeId edges) ∧
    (∀ d, lookAheadDistance (specSelectorForDepth d) =
      if 4 ≤ d then 1 else if d = 3 then 2 else if d = 2 then 8 else 16) := by
  refine ⟨rfl, fun d => ?_⟩
  unfold specSelectorForDepth
  split_ifs with h1 h2 h3 <;> rfl

/-- C6 (counterexample).  The claim says both argument forms are screened
by the plausible-size set {1,2,4,8,12,16,24,32}; on `count << 6` the
shift form of strategy 1 succeeds with per-element size 64, which is
outside the set. -/
theorem analyzeAllocationArgument_shl_counterexample :
    ((analyzeAllocationArgument (V.binop 1 .shl (V.other 2) (V.cnst 6))
        { callee := .malloc, args := [] }).map
      (fun r => (r.constantElementSize, r.elementSize, r.numElements))) =
      some (64, some (V.cnst 64), some (V.other 2)) ∧
    plausibleSize 64 = false := by
  decide

/-- C6 (amended).  Only the `count * constant` form of strategy 1 is
screened by the plausible-size set; the `count << shift` form succeeds
for every constant shift amount, producing per-element size `2 ^ shift`
whether or not it lies in the set, and a value that is neither a
multiplication nor a shift never matches. -/
theorem analyzeAllocationArgument_forms :
    (∀ (i : Nat) (a b : V) (r r2 : AllocRec),
      analyzeAllocationArgument (V.binop i .mul a b) r = some r2 →
        plausibleSize r2.constantElementSize = true) ∧
    (∀ (i : Nat) (a : V) (n : Int) (r : AllocRec),
      (analyzeAllocationArgument (V.binop i .shl a (V.cnst n)) r).isSome = true) ∧
    (∀ (i : Nat) (a : V) (n : Int) (r r2 : AllocRec),
      analyzeAllocationArgument (V.binop i .shl a (V.cnst n)) r = some r2 →
        r2.constantElementSize = 2 ^ n.toNat ∧
        r2.elementSize = some (V.cnst (2 ^ n.toNat)) ∧
        r2.numElements = some a) ∧
    (∀ (s : V) (r : AllocRec),
      (∀ (i : Nat) (a b : V), s ≠ V.binop i .mul a b) →
      (∀ (i : Nat) (a b : V), s ≠ V.binop i .shl a b) →
        analyzeAllocationArgument s r = none) := by
  refine ⟨?_, ?_, ?_, ?_⟩
  · intro i a b r r2 h
    unfold analyzeAllocationArgument at h
    cases b <;> cases a <;> simp_all <;> split_ifs at h <;> simp_all
    all_goals (subst h; simp [plausibleSize]; omega)
  · intro i a n r
    unfold analyzeAllocationArgument
    simp
  · intro i a n r r2 h
    unfold analyzeAllocationArgument at h
    simp at h
    subst h
    simp
  · intro s r hmul hshl
    unfold analyzeAllocationArgument
    cases s <;> simp_all

/-- C6 (witness).  Strategy 1 applied to `count * 8` (a plausible size):
`analyzeAllocationArgument_forms` at a concrete multiplication, its
success hypothesis discharged by evaluation. -/
theorem analyzeAllocationArgument_forms_witness :
    plausibleSize 8 = true := by
  have h := analyzeAllocationArgument_forms.1 0 (V.other 3) (V.cnst 8)
    { callee := .malloc, args := [] }
    { callee := .malloc, args := [], numElements := some (V.other 3),
      elementSize := some (V.cnst 8), constantElementSize := 8 } (by decide)
  simpa using h

/-- C3 (counterexample).  The claim says every record ends with
`element_byte_size ≥ 1`; a `calloc(200, 0)` call site — a degenerate but
recognized argument shape — copies the constant 0 straight into the
element size, and the default-to-1 guard does not fire because the field
is present. -/
theorem calloc_zero_size_counterexample :
    ((handleAllocation benignCtx oracleNone oracleNone .calloc
        [V.cnst 200, V.cnst 0]).map
      (fun r => (r.constantElementSize, r.elementSize, r.numElements))) =
      some (0, some (V.cnst 0), some (V.cnst 200)) ∧
    ¬ (1 : Int) ≤ 0 := by
  decide

/-- C3 (amended).  After `handleAllocation` finishes, the element-size
and element-count fields are never absent, for every recognized callee,
argument shape and strategy-oracle behaviour; but the element byte-size
is only guaranteed present, not `≥ 1` — the calloc path copies the size
argument verbatim, so a non-positive constant size survives. -/
theorem handleAllocation_size_fields_total (ctx : CallerCtx)
    (usage scev : AllocRec → Option AllocRec) (callee : AllocCallee)
    (args : List V) (r : AllocRec)
    (h : handleAllocation ctx usage scev callee args = some r) :
    r.elementSize ≠ none ∧ r.numElements ≠ none := by
  unfold handleAllocation at h
  split_ifs at h
  cases h
  unfold applySizeDefaults
  rcases hE : (inferElementSize usage scev
      { callee := callee, args := args }).elementSize with _ | e <;>
    rcases hN : (inferElementSize usage scev
      { callee := callee, args := args }).numElements with _ | nE <;>
    rcases hL : args.length with _ | k <;> simp [hE, hN, hL]

/-- C3 (witness).  `handleAllocation_size_fields_total` at the concrete
`calloc(200, 0)` record. -/
theorem handleAllocation_size_fields_total_witness :
    ({ callee := .calloc, args := [V.cnst 200, V.cnst 0],
       numElements := some (V.cnst 200), elementSize := some (V.cnst 0),
       constantElementSize := 0, constantNumElements := 200,
       inferredElementType := none } : AllocRec).elementSize ≠ none ∧
    ({ callee := .calloc, args := [V.cnst 200, V.cnst 0],
       numElements := some (V.cnst 200), elementSize := some (V.cnst 0),
       constantElementSize := 0, constantNumElements := 200,
       inferredElementType := none } : AllocRec).numElements ≠ none :=
  handleAllocation_size_fields_total benignCtx oracleNone oracleNone .calloc
    [V.cnst 200, V.cnst 0] _ (by decide)

/-- C10 (confirmed).  A record created from a `realloc` call site goes
through no inference strategy (the dispatcher is the identity on realloc
records, so neither oracle is consulted), and the defaulting block then
sets the element size to the constant 1 and the element count to the
call's first argument — which at a realloc call site is the old pointer
operand, not a byte count. -/
theorem realloc_default_fields (ctx : CallerCtx)
    (usage scev : AllocRec → Option AllocRec) (args : List V) (r : AllocRec)
    (h : handleAllocation ctx usage scev .realloc args = some r) :
    r.elementSize = some (V.cnst 1) ∧
    (0 < args.length → r.numElements = some (getArgOperand args 0)) ∧
    inferElementSize usage scev { callee := .realloc, args := args } =
      { callee := .realloc, args := args } := by
  unfold handleAllocation at h
  split_ifs at h
  cases h
  refine ⟨?_, ?_, by simp [inferElementSize]⟩ <;>
    simp [inferElementSize, applySizeDefaults] <;>
    rcases hL : args.length with _ | k <;> simp_all

/-- C10 (witness).  `realloc_default_fields` at a concrete
`realloc(p, 100)` call site. -/
theorem realloc_default_fields_witness :
    ({ callee := .realloc, args := [V.other 5, V.cnst 100],
       numElements := some (V.other 5), elementSize := some (V.cnst 1),
       constantElementSize := -1, constantNumElements := -1,
       inferredElementType := none } : AllocRec).elementSize =
        some (V.cnst 1) ∧
    (0 < ([V.other 5, V.cnst 100] : List V).length →
      ({ callee := .realloc, args := [V.other 5, V.cnst 100],
         numElements := some (V.other 5), elementSize := some (V.cnst 1),
         constantElementSize := -1, constantNumElements := -1,
         inferredElementType := none } : AllocRec).numElements =
        some (getArgOperand [V.other 5, V.cnst 100] 0)) ∧
    inferElementSize oracleNone oracleNone
      { callee := .realloc, args := [V.other 5, V.cnst 100] } =
      { callee := .realloc, args := [V.other 5, V.cnst 100] } :=
  realloc_default_fields benignCtx oracleNone oracleNone
    [V.other 5, V.cnst 100] _ (by decide)

/-- The validity screen of `createIndirectionEntry` written as an
`if` collapses to `getNodeId`, which already yields `UINT32_MAX` for an
unregistered value. -/
theorem registered_id_if (m : TrackerMap) (v : V) :
    (if isRegistered m v then getNodeId m v else UINT32MAX) = getNodeId m v := by
  unfold isRegistered getNodeId
  cases m.find? (fun p => p.1 = v) <;> simp

/-- C1 (counterexample).  The claim says no recorded edge is a
self-loop; the accessor-pattern connection path
(`connectAccessorPattern`) records — for a call whose `this` argument
resolves to registered node 3 with one stored pattern — an edge whose
source and destination node ids are both 3, and `detectIndirections`
returns it. -/
theorem accessor_self_loop_counterexample :
    ((detectIndirections 20 accModule accFunc accAllocs accPatterns
        accSession).map
      (fun p => p.1.map (fun e => (e.srcNodeId, e.destNodeId)))) =
      some [(3, 3)] := by
  decide

/-- C1 (amended).  Of the detection paths, only `createIndirectionEntry`
(used by the second pass and by the module-level ranged connections)
guarantees the no-self-loop invariant: every entry it adds has distinct
source and destination node ids.  The single-valued first pass checks
only validity and deduplication, and the accessor-pattern connection
records both endpoints as the same node, so those paths can record
self-loops. -/
theorem createIndirectionEntry_no_self_loop (st : DetSt) (src dest acc : V)
    (ty : IndirType) (info : IndirInfo)
    (h : info ∈ (createIndirectionEntry st src dest acc ty).indirections) :
    info ∈ st.indirections ∨ info.srcNodeId ≠ info.destNodeId := by
  unfold createIndirectionEntry at h
  simp only [registered_id_if] at h
  split at h
  case isTrue hval =>
    split at h
    · exact Or.inl h
    · cases ty <;>
        simp only [List.mem_append, List.mem_singleton] at h <;>
        rcases h with h | h
      · exact Or.inl h
      · subst h; right; simpa using hval.2.2
      · exact Or.inl h
      · subst h; right; simpa using hval.2.2
  case isFalse => exact Or.inl h

/-- C1 (witness).  `createIndirectionEntry_no_self_loop` at a concrete
entry between two distinct registered nodes. -/
theorem createIndirectionEntry_no_self_loop_witness :
    ({ srcBase := V.alloc 0, destBase := V.alloc 1, srcNodeId := 0,
       destNodeId := 1, itype := .singleValued,
       access := V.other 9 } : IndirInfo) ∈
      ({ tracker := [(V.alloc 0, 0), (V.alloc 1, 1)] } : DetSt).indirections ∨
    ({ srcBase := V.alloc 0, destBase := V.alloc 1, srcNodeId := 0,
       destNodeId := 1, itype := .singleValued,
       access := V.other 9 } : IndirInfo).srcNodeId ≠
    ({ srcBase := V.alloc 0, destBase := V.alloc 1, srcNodeId := 0,
       destNodeId := 1, itype := .singleValued,
       access := V.other 9 } : IndirInfo).destNodeId :=
  createIndirectionEntry_no_self_loop
    { tracker := [(V.alloc 0, 0), (V.alloc 1, 1)] }
    (V.alloc 0) (V.alloc 1) (V.other 9) .singleValued _ (by decide)

/-! ## C4: dedup-set persistence across `detectIndirections` calls

Monotonicity of the two persistent dedup sets through every loop of the
detector, culminating in `detectIndirections_grows`. -/

/-- Reflexivity of `DetGrows`. -/
theorem detGrows_refl (st : DetSt) : DetGrows st st := ⟨fun _ h => h, fun _ h => h⟩

/-- Transitivity of `DetGrows`. -/
theorem detGrows_trans {a b c : DetSt} (h1 : DetGrows a b) (h2 : DetGrows b c) :
    DetGrows a c :=
  ⟨fun k hk => h2.1 k (h1.1 k hk), fun k hk => h2.2 k (h1.2 k hk)⟩

/-- Recording one indirection entry only grows the dedup sets. -/
theorem createIndirectionEntry_grows (st : DetSt) (src dest acc : V) (ty : IndirType) :
    DetGrows st (createIndirectionEntry st src dest acc ty) := by
  unfold createIndirectionEntry
  simp only [registered_id_if]
  split
  · split
    · exact detGrows_refl st
    · cases ty <;> exact ⟨fun k hk => by simp [hk], fun k hk => by simp [hk]⟩
  · exact detGrows_refl st

/-- The accessor-pattern connection step only grows the dedup sets. -/
theorem connectAccessorPattern_grows (fuel : Nat) (M : IRModule) (st : DetSt)
    (ci : V) (args : List V) (pats : List AccessorPat) (st2 : DetSt)
    (h : connectAccessorPattern fuel M st ci args pats = some st2) :
    DetGrows st st2 := by
  unfold connectAccessorPattern at h
  split at h
  · cases h; exact detGrows_refl st
  · split at h
    · exact Option.noConfusion h
    · split at h <;> cases h <;> exact ⟨fun _ hk => hk, fun _ hk => hk⟩

/-- One first-pass index step only grows the dedup sets. -/
theorem singlePassIdx_grows (fuel : Nat) (M : IRModule) (st : DetSt)
    (ol ob idx : V) (st2 : DetSt)
    (h : singlePassIdx fuel M st ol ob idx = some st2) : DetGrows st st2 := by
  unfold singlePassIdx at h
  simp only [] at h
  repeat' (first | (exact Option.noConfusion h) | split at h)
  all_goals cases h
  all_goals exact ⟨fun k hk => by simp [hk], fun k hk => by simp [hk]⟩

/-- The first-pass index loop only grows the dedup sets. -/
theorem singlePassIdxList_grows (fuel : Nat) (M : IRModule) :
    ∀ (l : List V) (st : DetSt) (ol ob : V) (st2 : DetSt),
      singlePassIdxList fuel M st ol ob l = some st2 → DetGrows st st2 := by
  intro l
  induction l with
  | nil => intro st ol ob st2 h; cases h; exact detGrows_refl _
  | cons x rest ih =>
    intro st ol ob st2 h
    unfold singlePassIdxList at h
    split at h
    · exact Option.noConfusion h
    · rename_i st1 heq
      exact detGrows_trans (singlePassIdx_grows fuel M st ol ob x st1 heq)
        (ih st1 ol ob st2 h)

/-- The whole first pass only grows the dedup sets. -/
theorem singlePassScan_grows (fuel : Nat) (M : IRModule)
    (accPats : List (Nat × List AccessorPat)) :
    ∀ (l : List Inst) (st : DetSt) (st2 : DetSt),
      singlePassScan fuel M accPats st l = some st2 → DetGrows st st2 := by
  intro l
  induction l with
  | nil => intro st st2 h; cases h; exact detGrows_refl _
  | cons x rest ih =>
    intro st st2 h
    unfold singlePassScan at h
    repeat' split at h
    all_goals try exact Option.noConfusion h
    all_goals try exact ih st st2 h
    · rename_i heq
      exact detGrows_trans
        (connectAccessorPattern_grows _ _ _ _ _ _ _ heq) (ih _ _ h)
    · rename_i heq
      exact detGrows_trans
        (singlePassIdxList_grows _ _ _ _ _ _ _ heq) (ih _ _ h)

/-- A fold whose every step grows the dedup sets grows them overall. -/
theorem foldl_grows (f : DetSt → Inst → DetSt)
    (hf : ∀ st i, DetGrows st (f st i)) :
    ∀ (l : List Inst) (st : DetSt), DetGrows st (l.foldl f st) := by
  intro l
  induction l with
  | nil => intro st; exact detGrows_refl st
  | cons x rest ih => intro st; exact detGrows_trans (hf st x) (ih (f st x))

/-- Replacing the tracker map leaves the dedup sets untouched. -/
theorem trackerSet_grows (st : DetSt) (tr : TrackerMap) :
    DetGrows st { st with tracker := tr } := ⟨fun _ hk => hk, fun _ hk => hk⟩

/-- The second-pass entry-recording body only grows the dedup sets. -/
theorem secondPassBody_grows (fuel : Nat) (M : IRModule) (st : DetSt)
    (arrayBase outerGepBase outerGep : V) (st2 : DetSt)
    (h : secondPassBody fuel M st arrayBase outerGepBase outerGep = some st2) :
    DetGrows st st2 := by
  unfold secondPassBody at h
  repeat' (first | (exact Option.noConfusion h) | split at h)
  all_goals cases h
  · refine detGrows_trans (trackerSet_grows st _) (foldl_grows _ ?_ _ _)
    intro s i
    cases i with
    | oper v =>
      cases v <;> try exact detGrows_refl s
      case load lid p => exact createIndirectionEntry_grows s _ _ _ _
    | store _ _ _ => exact detGrows_refl s
    | br _ _ _ _ => exact detGrows_refl s
  · exact trackerSet_grows st _

/-- The second-pass position loop only grows the dedup sets. -/
theorem secondPassPositions_grows (fuel : Nat) (M : IRModule)
    (arrayBase indexValue outerGepBase outerGep : V) :
    ∀ (l : List V) (st st2 : DetSt),
      secondPassPositions fuel M st arrayBase indexValue outerGepBase
        outerGep l = some st2 → DetGrows st st2 := by
  intro l
  induction l with
  | nil => intro st st2 h; cases h; exact detGrows_refl _
  | cons op rest ih =>
    intro st st2 h
    unfold secondPassPositions at h
    split at h
    · split at h
      · exact Option.noConfusion h
      · rename_i st1 heq
        exact detGrows_trans (secondPassBody_grows _ _ _ _ _ _ _ heq)
          (ih _ _ h)
    · exact ih _ _ h

/-- The second-pass index-user loop only grows the dedup sets. -/
theorem secondPassIdxUsers_grows (fuel : Nat) (M : IRModule)
    (arrayBase indexValue : V) :
    ∀ (l : List Inst) (st st2 : DetSt),
      secondPassIdxUsers fuel M st arrayBase indexValue l = some st2 →
      DetGrows st st2 := by
  intro l
  induction l with
  | nil => intro st st2 h; cases h; exact detGrows_refl _
  | cons u rest ih =>
    intro st st2 h
    unfold secondPassIdxUsers at h
    repeat' (first | exact Option.noConfusion h | split at h)
    · rename_i st1 heq
      exact detGrows_trans
        (secondPassPositions_grows _ _ _ _ _ _ _ _ _ heq) (ih _ _ h)
    · exact ih _ _ h

/-- The second-pass load-user loop only grows the dedup sets. -/
theorem secondPassLoadUsers_grows (fuel : Nat) (M : IRModule)
    (arrayBase li : V) :
    ∀ (l : List Inst) (st st2 : DetSt),
      secondPassLoadUsers fuel M st arrayBase li l = some st2 →
      DetGrows st st2 := by
  intro l
  induction l with
  | nil => intro st st2 h; cases h; exact detGrows_refl _
  | cons u rest ih =>
    intro st st2 h
    unfold secondPassLoadUsers at h
    try simp only [] at h
    repeat' (first | exact Option.noConfusion h | split at h)
    all_goals rename_i st1 heq
    all_goals exact detGrows_trans (secondPassIdxUsers_grows _ _ _ _ _ _ _ heq) (ih _ _ h)

/-- The second-pass GEP-user loop only grows the dedup sets. -/
theorem secondPassGepUsers_grows (fuel : Nat) (M : IRModule) (gepBase : V) :
    ∀ (l : List Inst) (st st2 : DetSt),
      secondPassGepUsers fuel M st gepBase l = some st2 →
      DetGrows st st2 := by
  intro l
  induction l with
  | nil => intro st st2 h; cases h; exact detGrows_refl _
  | cons u rest ih =>
    intro st st2 h
    unfold secondPassGepUsers at h
    repeat' (first | exact Option.noConfusion h | split at h)
    · rename_i st1 heq
      exact detGrows_trans (detGrows_trans (trackerSet_grows st _)
        (secondPassLoadUsers_grows _ _ _ _ _ _ _ heq)) (ih _ _ h)
    · exact ih _ _ h

/-- The second pass over collected GEPs only grows the dedup sets. -/
theorem secondPassGeps_grows (fuel : Nat) (M : IRModule) :
    ∀ (l : List V) (st st2 : DetSt),
      secondPassGeps fuel M st l = some st2 → DetGrows st st2 := by
  intro l
  induction l with
  | nil => intro st st2 h; cases h; exact detGrows_refl _
  | cons g rest ih =>
    intro st st2 h
    unfold secondPassGeps at h
    repeat' (first | exact Option.noConfusion h | split at h)
    · rename_i st1 heq
      exact detGrows_trans (secondPassGepUsers_grows _ _ _ _ _ _ heq)
        (ih _ _ h)
    · exact ih _ _ h

/-- Single-valued detection only grows the dedup sets. -/
theorem identifySingleValuedIndirections_grows (fuel : Nat) (M : IRModule)
    (F : Func) (accPats : List (Nat × List AccessorPat)) (st st2 : DetSt)
    (h : identifySingleValuedIndirections fuel M F accPats st = some st2) :
    DetGrows st st2 := by
  unfold identifySingleValuedIndirections at h
  try simp only [] at h
  repeat' (first | exact Option.noConfusion h | split at h)
  rename_i st1 heq
  exact detGrows_trans (singlePassScan_grows _ _ _ _ _ _ heq)
    (secondPassGeps_grows _ _ _ _ _ h)

/-- The ranged access loop only grows the dedup sets. -/
theorem rangedAccessLoop_grows (fuel : Nat) (M : IRModule) (sl : V × V) :
    ∀ (l : List (V × V)) (st : DetSt) (localPats : List (V × V))
      (st2 : DetSt),
      rangedAccessLoop fuel M st localPats sl l = some st2 →
      DetGrows st st2 := by
  intro l
  induction l with
  | nil => intro st lp st2 h; cases h; exact detGrows_refl _
  | cons p rest ih =>
    intro st lp st2 h
    unfold rangedAccessLoop at h
    try simp only [] at h
    repeat' (first | exact Option.noConfusion h | split at h)
    all_goals refine detGrows_trans ?_ (ih _ _ _ h)
    all_goals exact ⟨fun _ hk => hk, fun _ hk => by simp [hk]⟩

/-- The ranged comparison-user loop only grows the dedup sets. -/
theorem rangedCmpUsers_grows (fuel : Nat) (M : IRModule) (F : Func)
    (sl : V × V) :
    ∀ (l : List Inst) (st st2 : DetSt),
      rangedCmpUsers fuel M F st sl l = some st2 → DetGrows st st2 := by
  intro l
  induction l with
  | nil => intro st st2 h; cases h; exact detGrows_refl _
  | cons u rest ih =>
    intro st st2 h
    unfold rangedCmpUsers at h
    try simp only [] at h
    repeat' (first | exact Option.noConfusion h | split at h)
    · exact ih _ _ h
    · rename_i st1 heq
      exact detGrows_trans (rangedAccessLoop_grows _ _ _ _ _ _ _ heq)
        (ih _ _ h)
    · exact ih _ _ h

/-- The ranged end-value loop only grows the dedup sets. -/
theorem rangedEndVals_grows (fuel : Nat) (M : IRModule) (F : Func)
    (sl : V × V) :
    ∀ (l : List V) (st st2 : DetSt),
      rangedEndVals fuel M F st sl l = some st2 → DetGrows st st2 := by
  intro l
  induction l with
  | nil => intro st st2 h; cases h; exact detGrows_refl _
  | cons ev rest ih =>
    intro st st2 h
    unfold rangedEndVals at h
    repeat' (first | exact Option.noConfusion h | split at h)
    rename_i st1 heq
    exact detGrows_trans (rangedCmpUsers_grows _ _ _ _ _ _ _ heq)
      (ih _ _ h)

/-- The per-pair ranged check only grows the dedup sets. -/
theorem checkForRangedPattern_grows (fuel : Nat) (M : IRModule) (F : Func)
    (st : DetSt) (sl el : V × V) (st2 : DetSt)
    (h : checkForRangedPattern fuel M F st sl el = some st2) :
    DetGrows st st2 := by
  unfold checkForRangedPattern at h
  try simp only [] at h
  exact rangedEndVals_grows _ _ _ _ _ _ _ h

/-- The inner ranged pair loop only grows the dedup sets. -/
theorem rangedInnerScan_grows (fuel : Nat) (M : IRModule) (F : Func) :
    ∀ (l : List (V × V)) (l1 : V × V) (st st2 : DetSt),
      rangedInnerScan fuel M F st l1 l = some st2 → DetGrows st st2 := by
  intro l
  induction l with
  | nil => intro l1 st st2 h; cases h; exact detGrows_refl _
  | cons l2 rest ih =>
    intro l1 st st2 h
    unfold rangedInnerScan at h
    try simp only [] at h
    repeat' (first | exact Option.noConfusion h | split at h)
    · rename_i stc heq
      exact detGrows_trans (detGrows_trans (trackerSet_grows st _)
        (checkForRangedPattern_grows _ _ _ _ _ _ _ heq)) (ih _ _ _ h)
    · exact detGrows_trans (trackerSet_grows st _) (ih _ _ _ h)

/-- The outer ranged pair loop only grows the dedup sets. -/
theorem rangedPairScan_grows (fuel : Nat) (M : IRModule) (F : Func) :
    ∀ (l : List (V × V)) (st st2 : DetSt),
      rangedPairScan fuel M F st l = some st2 → DetGrows st st2 := by
  intro l
  induction l with
  | nil => intro st st2 h; cases h; exact detGrows_refl _
  | cons l1 rest ih =>
    intro st st2 h
    unfold rangedPairScan at h
    repeat' (first | exact Option.noConfusion h | split at h)
    rename_i st1 heq
    exact detGrows_trans (rangedInnerScan_grows _ _ _ _ _ _ _ heq)
      (ih _ _ h)

/-- Ranged detection only grows the dedup sets. -/
theorem identifyRangedIndirections_grows (fuel : Nat) (M : IRModule)
    (F : Func) (st st2 : DetSt)
    (h : identifyRangedIndirections fuel M F st = some st2) :
    DetGrows st st2 :=
  rangedPairScan_grows _ _ _ _ _ _ h

/-- A completed `detectIndirections` call only grows the two
persistent dedup sets, while clearing and refilling `indirections`. -/
theorem detectIndirections_grows (fuel : Nat) (M : IRModule) (F : Func)
    (allocs : List AllocInfoD) (accPats : List (Nat × List AccessorPat))
    (st : DetSt) (res : List IndirInfo) (st2 : DetSt)
    (h : detectIndirections fuel M F allocs accPats st = some (res, st2)) :
    DetGrows st st2 := by
  unfold detectIndirections at h
  try simp only [] at h
  split at h
  · exact Option.noConfusion h
  · rename_i stA heqA
    split at h
    · exact Option.noConfusion h
    · rename_i stB heqB
      cases h
      have g1 : DetGrows st { st with indirections := [] } :=
        ⟨fun _ hk => hk, fun _ hk => hk⟩
      have g2 := identifySingleValuedIndirections_grows _ _ _ _ _ _ heqA
      have g3 := identifyRangedIndirections_grows _ _ _ _ _ heqB
      exact detGrows_trans g1 (detGrows_trans g2
        (detGrows_trans g3 ⟨fun _ hk => hk, fun _ hk => hk⟩))

/-- C4 (amended).  The claimed idempotence fails — the dedup sets are
persistent session state, not per-call state, so a repeated call is
diminished rather than identical (see the C4 counterexample).  What does
hold is monotonicity: across two completed `detectIndirections` calls on
the same function within one session, every dedup key present before
each call is still present after it — entries are never doubled. -/
theorem detectIndirections_dedup_monotone (fuel : Nat) (M : IRModule)
    (F : Func) (allocs : List AllocInfoD)
    (accPats : List (Nat × List AccessorPat)) (st : DetSt)
    (res1 : List IndirInfo) (st1 : DetSt) (res2 : List IndirInfo)
    (st2 : DetSt)
    (h1 : detectIndirections fuel M F allocs accPats st = some (res1, st1))
    (h2 : detectIndirections fuel M F allocs accPats st1 = some (res2, st2)) :
    DetGrows st st1 ∧ DetGrows st1 st2 :=
  ⟨detectIndirections_grows _ _ _ _ _ _ _ _ h1,
   detectIndirections_grows _ _ _ _ _ _ _ _ h2⟩

/-- C4 (witness).  The amended theorem applied to the two concrete
calls of the idempotence experiment. -/
theorem detectIndirections_dedup_monotone_witness :
    DetGrows abSession (abFirstCall.getD ([], abSession)).2 ∧
    DetGrows (abFirstCall.getD ([], abSession)).2
      (abSecondCall.getD ([], abSession)).2 :=
  detectIndirections_dedup_monotone 20 abModule abFunc abAllocs [] abSession
    (abFirstCall.getD ([], abSession)).1 (abFirstCall.getD ([], abSession)).2
    (abSecondCall.getD ([], abSession)).1 (abSecondCall.getD ([], abSession)).2
    rfl rfl

/-- C4 (counterexample).  The claim says a second `detectIndirections`
call on the same function within one session returns the same edge set;
on `abModule` the first call returns the single edge `(0, 1)` while the
second returns no edges at all — the persistent dedup sets suppress
re-detection, so the second result is diminished, not identical. -/
theorem detect_twice_diminished_counterexample :
    abFirstCall.map (fun r => r.1.map (fun i => (i.srcNodeId, i.destNodeId)))
      = some [(0, 1)] ∧
    abSecondCall.map (fun r => r.1.map (fun i => (i.srcNodeId, i.destNodeId)))
      = some [] := by
  decide

/-! ## C9: the resolver only adds registrations

Monotonicity of `isRegistered` through `getBasePointer` and its scan
loops. -/

/-- Reflexivity of `RegGrows`. -/
theorem regGrows_refl (a : TrackerMap) : RegGrows a a := fun _ h => h

/-- Transitivity of `RegGrows`. -/
theorem regGrows_trans {a b c : TrackerMap} (h1 : RegGrows a b)
    (h2 : RegGrows b c) : RegGrows a c := fun p hp => h2 p (h1 p hp)

/-- Appending entries preserves existing registrations. -/
theorem isRegistered_mono_append (m l : TrackerMap) (p : V)
    (h : isRegistered m p = true) : isRegistered (m ++ l) p = true := by
  unfold isRegistered at *
  rw [List.find?_isSome] at *
  obtain ⟨x, hx, hpx⟩ := h
  exact ⟨x, List.mem_append_left _ hx, hpx⟩

/-- Overwriting one entry in place preserves existing registrations. -/
theorem isRegistered_mapUpdate (m : TrackerMap) (v : V) (nid : Nat) (p : V)
    (h : isRegistered m p = true) :
    isRegistered (m.map (fun q => if q.1 = v then (v, nid) else q)) p
      = true := by
  unfold isRegistered at *
  rw [List.find?_isSome] at *
  obtain ⟨x, hx, hpx⟩ := h
  refine ⟨if x.1 = v then (v, nid) else x, List.mem_map.mpr ⟨x, hx, rfl⟩, ?_⟩
  split
  · rename_i hv
    simp only [decide_eq_true_eq] at hpx ⊢
    rw [← hv]; exact hpx
  · exact hpx

/-- `registerPointer` never unregisters a pointer. -/
theorem registerPointer_grows (m : TrackerMap) (v : V) (nid : Nat) :
    RegGrows m (registerPointer m v nid) := by
  intro p hp
  unfold registerPointer
  split
  · exact isRegistered_mapUpdate m v nid p hp
  · exact isRegistered_mono_append m _ p hp

/-- The similar-store scan only grows the registrations, provided the
recursive resolver does. -/
theorem scanStoredList_grows
    (resolve : TrackerMap → V → Option (V × TrackerMap))
    (hres : ∀ st v b st', resolve st v = some (b, st') → RegGrows st st') :
    ∀ (l : List V) (st : TrackerMap) (ob : Option V) (st' : TrackerMap),
      scanStoredList resolve st l = some (ob, st') → RegGrows st st' := by
  intro l
  induction l with
  | nil => intro st ob st' h; cases h; exact regGrows_refl _
  | cons sv rest ih =>
    intro st ob st' h
    unfold scanStoredList at h
    split at h
    · cases h; exact regGrows_refl _
    · split at h
      · exact Option.noConfusion h
      · rename_i b st1 heq
        split at h
        · cases h; exact hres _ _ _ _ heq
        · exact regGrows_trans (hres _ _ _ _ heq) (ih _ _ _ h)

/-- The direct-store scan only grows the registrations, provided the
recursive resolver does. -/
theorem scanDirectStores_grows
    (resolve : TrackerMap → V → Option (V × TrackerMap))
    (hres : ∀ st v b st', resolve st v = some (b, st') → RegGrows st st')
    (lptr : V) :
    ∀ (l : List V) (st : TrackerMap) (ob : Option V) (st' : TrackerMap),
      scanDirectStores resolve lptr st l = some (ob, st') →
      RegGrows st st' := by
  intro l
  induction l with
  | nil => intro st ob st' h; cases h; exact regGrows_refl _
  | cons sv rest ih =>
    intro st ob st' h
    unfold scanDirectStores at h
    split at h
    · cases h; exact registerPointer_grows _ _ _
    · split at h
      · exact Option.noConfusion h
      · rename_i b st1 heq
        split at h
        · cases h; exact hres _ _ _ _ heq
        · exact regGrows_trans (hres _ _ _ _ heq) (ih _ _ _ h)

/-- The alloca store scan only grows the registrations. -/
theorem allocaStoreScan_grows (ai : V) :
    ∀ (l : List V) (st : TrackerMap) (r : Option V × TrackerMap),
      allocaStoreScan st ai l = r → RegGrows st r.2 := by
  intro l
  induction l with
  | nil => intro st r h; cases h; exact regGrows_refl _
  | cons sv rest ih =>
    intro st r h
    unfold allocaStoreScan at h
    split at h
    · cases h; exact registerPointer_grows _ _ _
    · exact ih _ _ h

/-- One-step unfolding of `getBasePointer` at a positive budget. -/
theorem getBasePointer_succ (fuel : Nat) (M : IRModule) (st : TrackerMap)
    (ptr : V) :
    getBasePointer (fuel + 1) M st ptr =
    (if isRegistered st ptr then some (ptr, st)
    else
      match ptr with
      | .global g =>
        match storeValsTo M.insts (V.global g) with
        | [] => some (V.global g, st)
        | sv :: _ =>
          if isRegistered st sv then
            some (sv, registerPointer st (V.global g) (getNodeId st sv))
          else getBasePointer fuel M st sv
      | .gep _ base idxs =>
        let isStructAccess : Bool := decide (idxs.toList.length ≥ 2) &&
          (match idxs.toList.head? with | some (V.cnst 0) => true | _ => false)
        let baseIsLoad : Bool := match base with | V.load _ _ => true | _ => false
        if isStructAccess && baseIsLoad then
          match scanStoredList (getBasePointer fuel M) st
              (similarStoreVals M idxs.toList) with
          | none => none
          | some (some b, st1) => some (b, st1)
          | some (none, st1) => getBasePointer fuel M st1 base
        else getBasePointer fuel M st base
      | .load lid lptr =>
        let globalHit : Option V :=
          match lptr with
          | .global _ => (storeValsTo M.insts lptr).head?
          | _ => none
        match globalHit with
        | some sv =>
          if isRegistered st sv then some (sv, st)
          else getBasePointer fuel M st sv
        | none =>
          let stepB : Option (Option V × TrackerMap) :=
            match lptr with
            | .gep _ _ gidxs =>
              scanStoredList (getBasePointer fuel M) st
                (similarStoreVals M gidxs.toList)
            | _ => some (none, st)
          match stepB with
          | none => none
          | some (some b, st1) => some (b, st1)
          | some (none, st1) =>
            match scanDirectStores (getBasePointer fuel M) lptr st1
                (storeValsTo M.insts lptr) with
            | none => none
            | some (some b, st2) => some (b, st2)
            | some (none, st2) =>
              match lptr with
              | .alloca a =>
                match funcOfValue M (V.alloca a) with
                | some F =>
                  match allocaStoreScan st2 (V.alloca a)
                      (storeValsTo F.insts (V.alloca a)) with
                  | (some sv, st3) => some (sv, st3)
                  | (none, st3) => some (V.load lid lptr, st3)
                | none => some (V.load lid lptr, st2)
              | _ => some (V.load lid lptr, st2)
      | p => some (p, st)) := rfl

/-- A completed `getBasePointer` call only grows the registrations of
the tracker map, by induction on the recursion budget. -/
theorem getBasePointer_regGrows :
    ∀ (fuel : Nat) (M : IRModule) (st : TrackerMap) (v b : V)
      (st' : TrackerMap),
      getBasePointer fuel M st v = some (b, st') → RegGrows st st' := by
  intro fuel
  induction fuel with
  | zero => intro M st v b st' h; exact Option.noConfusion h
  | succ fuel ih =>
    intro M st v b st' h
    have hres : ∀ st v b st',
        getBasePointer fuel M st v = some (b, st') → RegGrows st st' :=
      fun st v b st' h => ih M st v b st' h
    rw [getBasePointer_succ] at h
    try simp only [] at h
    split at h
    · cases h; exact regGrows_refl _
    · split at h
      · -- ptr = global g
        split at h
        · cases h; exact regGrows_refl _
        · split at h
          · cases h; exact registerPointer_grows _ _ _
          · exact hres _ _ _ _ h
      · -- ptr = gep
        split at h
        · split at h
          · exact Option.noConfusion h
          · rename_i b1 st1 heq
            cases h; exact scanStoredList_grows _ hres _ _ _ _ heq
          · rename_i st1 heq
            exact regGrows_trans (scanStoredList_grows _ hres _ _ _ _ heq)
              (hres _ _ _ _ h)
        · exact hres _ _ _ _ h
      · -- ptr = load lid lptr
        split at h
        · -- globalHit = some sv
          split at h
          · cases h; exact regGrows_refl _
          · exact hres _ _ _ _ h
        · -- globalHit = none: stepB match
          split at h
          · exact Option.noConfusion h
          · rename_i b1 st1 heq
            cases h
            -- stepB = some (some b1, st1): split the inner lptr match
            split at heq
            · exact scanStoredList_grows _ hres _ _ _ _ heq
            · cases heq
          · rename_i st1 heq
            -- stepB = some (none, st1)
            have g1 : RegGrows st st1 := by
              split at heq
              · exact scanStoredList_grows _ hres _ _ _ _ heq
              · cases heq; exact regGrows_refl _
            split at h
            · exact Option.noConfusion h
            · rename_i b2 st2 heq2
              cases h
              exact regGrows_trans g1
                (scanDirectStores_grows _ hres _ _ _ _ _ heq2)
            · rename_i st2 heq2
              have g2 : RegGrows st1 st2 :=
                scanDirectStores_grows _ hres _ _ _ _ _ heq2
              split at h
              · -- lptr = alloca a
                split at h
                · -- funcOfValue = some F
                  split at h
                  · rename_i sv st3 heq3
                    cases h
                    exact regGrows_trans g1 (regGrows_trans g2
                      (allocaStoreScan_grows _ _ _ _ heq3))
                  · rename_i st3 heq3
                    cases h
                    exact regGrows_trans g1 (regGrows_trans g2
                      (allocaStoreScan_grows _ _ _ _ heq3))
                · cases h; exact regGrows_trans g1 g2
              · cases h; exact regGrows_trans g1 g2
      · -- catch-all
        cases h; exact regGrows_refl _

/-- C9 (amended).  The memoization is observable through the tracker's
public interface (see the C9 counterexample), so the claimed frame
condition fails as stated.  What does hold: the only side effect of a
completed `getBasePointer` call is to add registrations — every pointer
registered before the call is still registered, with resolution
recorded only for previously unregistered values. -/
theorem getBasePointer_memo_monotone (fuel : Nat) (M : IRModule)
    (st : TrackerMap) (v b : V) (st' : TrackerMap)
    (h : getBasePointer fuel M st v = some (b, st')) : RegGrows st st' :=
  getBasePointer_regGrows fuel M st v b st' h

/-- C9 (witness).  The amended theorem applied to resolving global
`@g1` of `aliasModule`, which registers the global as an alias. -/
theorem getBasePointer_memo_monotone_witness :
    RegGrows aliasTracker [(V.alloc 0, 0), (V.global 1, 0)] :=
  getBasePointer_memo_monotone 2 aliasModule aliasTracker (V.global 1)
    (V.alloc 0) [(V.alloc 0, 0), (V.global 1, 0)] rfl

/-! ## C8: trigger assignment screening -/

/-- C8 (counterexample).  The claim says no node with an incoming edge
anywhere in the unit appears in any TriggerAssignment; with the unit's
only indirection detected in function 1 and targeting node 0 (allocated
in function 0), the insertion phase emits triggers for both nodes —
node 0's incoming edge is not yet registered when function 0 is
processed, and the screen compares base values, not node ids. -/
theorem trigger_incoming_edge_counterexample :
    runInsertionPhase [0, 1] crossEdges crossAllocs = [0, 1] ∧
    ((crossEdges 1).map (fun e => e.destNodeId)).contains 0 = true := by
  decide

/-- Every key that `insertEdges` adds takes its `destBase` from one of
the processed edges. -/
theorem insertEdges_no_key (x : Nat) :
    ∀ (edgesF : List EdgeD) (reg : List EdgeKeyD),
      (∀ e ∈ edgesF, e.destBase ≠ x) → (∀ k ∈ reg, k.2.1 ≠ x) →
      ∀ k ∈ insertEdges edgesF reg, k.2.1 ≠ x := by
  intro edgesF
  induction edgesF with
  | nil => intro reg _ hr k hk; exact hr k hk
  | cons e rest ih =>
    intro reg he hr k hk
    simp only [insertEdges, List.foldl_cons] at hk
    refine ih _ (fun e' he' => he e' (List.mem_cons_of_mem _ he')) ?_ k hk
    intro k' hk'
    split at hk'
    · exact hr k' hk'
    · split at hk'
      · exact hr k' hk'
      · rcases List.mem_append.mp hk' with h1 | h1
        · exact hr k' h1
        · rcases List.mem_singleton.mp h1 with rfl
          exact he e (List.mem_cons_self _ _)

/-- Trigger multiplicity of one `insertTriggerEdges` call for a node
whose base value is screened out of the incoming list. -/
theorem trigCount_general (f : Nat) (edgesF : List EdgeD)
    (reg : List EdgeKeyD) (a : AllocD)
    (hinc : ((edgesF.map (fun e => e.destBase) ++
      reg.map (fun k => k.2.1)).contains a.basePtr) = false) :
    ∀ (al : List AllocD),
      (∀ b ∈ al, b.nodeId = a.nodeId →
        b.basePtr = a.basePtr ∧ b.funcIdx = a.funcIdx ∧
        (b.funcIdx = f → b.registered = true)) →
      (insertTriggerEdges f al edgesF reg).count a.nodeId =
        if f = a.funcIdx then al.countP (fun b => b.nodeId = a.nodeId)
        else 0 := by
  intro al
  induction al with
  | nil => intro _; simp [insertTriggerEdges]
  | cons b rest ih =>
    intro hinv
    have hrest := ih (fun b' hb' => hinv b' (List.mem_cons_of_mem _ hb'))
    by_cases hb : b.nodeId = a.nodeId
    · obtain ⟨hbase, hfi, hreg⟩ := hinv b (List.mem_cons_self _ _) hb
      by_cases hf : f = a.funcIdx
      · have hcond : b.funcIdx = f ∧ b.registered = true ∧
            ¬ ((edgesF.map (fun e => e.destBase) ++
              reg.map (fun k => k.2.1)).contains b.basePtr = true) := by
          refine ⟨by rw [hfi, hf], hreg (by rw [hfi, hf]), ?_⟩
          rw [hbase, hinc]; simp
        simp only [insertTriggerEdges, List.filterMap_cons] at hrest ⊢
        rw [if_pos ⟨hcond.1, hcond.2.1, hcond.2.2⟩]
        simp only [List.count_cons, hrest, if_pos hf, List.countP_cons, hb]
        simp [hb]
      · have hcond : ¬ (b.funcIdx = f ∧ b.registered = true ∧
            ¬ ((edgesF.map (fun e => e.destBase) ++
              reg.map (fun k => k.2.1)).contains b.basePtr = true)) := by
          intro hc
          exact hf (by rw [← hc.1, hfi])
        simp only [insertTriggerEdges, List.filterMap_cons] at hrest ⊢
        rw [if_neg hcond]
        simp only [hrest, if_neg hf]
    · simp only [insertTriggerEdges, List.filterMap_cons] at hrest ⊢
      have hne : (a.nodeId == b.nodeId) = false := by
        simp; exact fun h => hb h.symm
      have hnp : (decide (b.nodeId = a.nodeId)) = false := by simp [hb]
      by_cases hcond : (b.funcIdx = f ∧ b.registered = true ∧
          ¬ ((edgesF.map (fun e => e.destBase) ++
            reg.map (fun k => k.2.1)).contains b.basePtr = true))
      · rw [if_pos hcond]
        simp [List.count_cons, List.countP_cons, hne, hnp, hrest, hb]
      · rw [if_neg hcond]
        simp [List.countP_cons, hnp, hrest, hb]

/-- A list containing no occurrence of `x` reports `contains = false`. -/
theorem contains_false_of_all_ne (x : Nat) (l : List Nat)
    (h : ∀ y ∈ l, y ≠ x) : l.contains x = false := by
  by_contra hc
  have ht : l.contains x = true := by
    cases hcv : l.contains x
    · exact absurd hcv hc
    · rfl
  have hmem : x ∈ l := by simpa using ht
  exact h x hmem rfl

/-- Node registration preserves the per-node-id multiplicity. -/
theorem insertNodeRegistrations_countP (f nid : Nat) (al : List AllocD) :
    (insertNodeRegistrations f al).countP (fun b => b.nodeId = nid) =
      al.countP (fun b => b.nodeId = nid) := by
  unfold insertNodeRegistrations
  rw [List.countP_map]
  congr 1
  funext b
  simp only [Function.comp]
  split <;> rfl

/-- Node registration preserves the allocation fields and registers
every allocation of the current function. -/
theorem insertNodeRegistrations_inv (f : Nat) (al : List AllocD) (a : AllocD)
    (hinv : ∀ b ∈ al, b.nodeId = a.nodeId →
      b.basePtr = a.basePtr ∧ b.funcIdx = a.funcIdx) :
    ∀ b ∈ insertNodeRegistrations f al, b.nodeId = a.nodeId →
      b.basePtr = a.basePtr ∧ b.funcIdx = a.funcIdx ∧
      (b.funcIdx = f → b.registered = true) := by
  intro b hb hnid
  unfold insertNodeRegistrations at hb
  obtain ⟨b0, hb0, heq⟩ := List.mem_map.mp hb
  by_cases hc : (b0.funcIdx = f ∧ ¬ b0.registered = true)
  · rw [if_pos hc] at heq
    subst heq
    obtain ⟨h1, h2⟩ := hinv b0 hb0 hnid
    exact ⟨h1, h2, fun _ => rfl⟩
  · rw [if_neg hc] at heq
    subst heq
    obtain ⟨h1, h2⟩ := hinv b0 hb0 hnid
    refine ⟨h1, h2, fun hf => ?_⟩
    by_contra hr
    exact hc ⟨hf, hr⟩

/-- Trigger multiplicity across the whole insertion phase: a node whose
base value no edge of any function targets is triggered exactly once,
at its own function. -/
theorem insertPhase_trigCount (edges : Nat → List EdgeD) (a : AllocD)
    (hbase : ∀ f e, e ∈ edges f → e.destBase ≠ a.basePtr) :
    ∀ (funcs : List Nat) (al : List AllocD) (reg : List EdgeKeyD)
      (trig : List Nat),
      (∀ b ∈ al, b.nodeId = a.nodeId →
        b.basePtr = a.basePtr ∧ b.funcIdx = a.funcIdx) →
      al.countP (fun b => b.nodeId = a.nodeId) = 1 →
      (∀ k ∈ reg, k.2.1 ≠ a.basePtr) →
      funcs.Nodup →
      ((insertPhase edges funcs (al, reg, trig)).2.2).count a.nodeId =
        trig.count a.nodeId + (if a.funcIdx ∈ funcs then 1 else 0) := by
  intro funcs
  induction funcs with
  | nil => intro al reg trig _ _ _ _; simp [insertPhase]
  | cons f rest ih =>
    intro al reg trig hinv hcnt hreg hnd
    have halne : al.isEmpty = false := by
      cases al with
      | nil => simp at hcnt
      | cons _ _ => rfl
    have hinv1 := insertNodeRegistrations_inv f al a hinv
    have hreg1 : ∀ k ∈ insertEdges (edges f) reg, k.2.1 ≠ a.basePtr :=
      insertEdges_no_key a.basePtr (edges f) reg
        (fun e he => hbase f e he) hreg
    have hinc : (((edges f).map (fun e => e.destBase) ++
        (insertEdges (edges f) reg).map (fun k => k.2.1)).contains
          a.basePtr) = false := by
      refine contains_false_of_all_ne _ _ (fun y hy => ?_)
      rcases List.mem_append.mp hy with h1 | h1
      · obtain ⟨e, he, rfl⟩ := List.mem_map.mp h1
        exact hbase f e he
      · obtain ⟨k, hk, rfl⟩ := List.mem_map.mp h1
        exact hreg1 k hk
    have htrig := trigCount_general f (edges f) (insertEdges (edges f) reg)
      a hinc (insertNodeRegistrations f al) hinv1
    have hcnt1 := insertNodeRegistrations_countP f a.nodeId al
    simp only [insertPhase, insertRuntimeCalls, halne]
    rw [if_neg (by simp [halne])]
    simp only []
    rw [ih (insertNodeRegistrations f al) (insertEdges (edges f) reg) _
      (fun b hb hn => ⟨(hinv1 b hb hn).1, (hinv1 b hb hn).2.1⟩)
      (by rw [hcnt1]; exact hcnt) hreg1 (List.nodup_cons.mp hnd).2]
    rw [List.count_append, htrig, hcnt1, hcnt]
    by_cases hfa : f = a.funcIdx
    · have hnin : a.funcIdx ∉ rest := by
        rw [← hfa]; exact (List.nodup_cons.mp hnd).1
      simp [hfa, hnin]
    · have : (a.funcIdx ∈ f :: rest) ↔ (a.funcIdx ∈ rest) := by
        constructor
        · intro h
          rcases List.mem_cons.mp h with h1 | h1
          · exact absurd h1.symm hfa
          · exact h1
        · exact List.mem_cons_of_mem _
      by_cases hm : a.funcIdx ∈ rest
      · simp [hfa, hm, this]
      · simp [hfa, hm, this]

/-- C8 (amended).  The claimed "if and only if" fails: the incoming-edge
screen compares base values against only the edges of functions already
processed, so a node whose incoming edge is detected in a later function
still receives a trigger (see the C8 counterexample).  The completeness
direction holds in base-value terms: an allocation occurring once (by
node id), whose base value no recorded edge of any function targets,
receives exactly one trigger when each surviving function is processed
once. -/
theorem runInsertionPhase_unique_trigger (funcs : List Nat)
    (edges : Nat → List EdgeD) (allocs : List AllocD) (a : AllocD)
    (hinv : ∀ b ∈ allocs, b.nodeId = a.nodeId →
      b.basePtr = a.basePtr ∧ b.funcIdx = a.funcIdx)
    (hcnt : allocs.countP (fun b => b.nodeId = a.nodeId) = 1)
    (hf : a.funcIdx ∈ funcs) (hnd : funcs.Nodup)
    (hbase : ∀ f e, e ∈ edges f → e.destBase ≠ a.basePtr) :
    (runInsertionPhase funcs edges allocs).count a.nodeId = 1 := by
  unfold runInsertionPhase
  rw [insertPhase_trigCount edges a hbase funcs allocs [] []
    hinv hcnt (by intro k hk; simp at hk) hnd]
  simp [hf]

/-- C8 (witness).  The amended theorem applied to node 1 of the
cross-function instance, whose base no edge targets. -/
theorem runInsertionPhase_unique_trigger_witness :
    (runInsertionPhase [0, 1] crossEdges crossAllocs).count 1 = 1 :=
  runInsertionPhase_unique_trigger [0, 1] crossEdges crossAllocs
    ⟨1, 1, 1, false⟩ (by decide) (by decide) (by decide) (by decide)
    (by
      intro f e he
      by_cases hf1 : f = 1
      · subst hf1
        simp only [crossEdges, if_pos rfl] at he
        simp at he
        subst he
        decide
      · simp [crossEdges, hf1] at he)
